import Mathlib

/-!
Verification of the Codex tool adapter
(`src/agents/extensions/experimental/codex/codex_tool.py`).

Strings are modelled as `List Char` (Python `str`).  JSON values are
modelled by the inductive `JsonValue`; `jsonDumps` models
`json.dumps(value, ensure_ascii=True, separators=(",", ":"))` and
`jsonParse` models `json.loads` restricted to the compact texts that
`jsonDumps` produces (no inter-token whitespace, which `jsonDumps`
never emits).

The helper modules `events`, `items` and `thread` of the package are not
part of the sources; the event/item/usage shapes they define are
modelled from the spec (sections 3 and 4.4) and marked as such below.
All the tool-adapter logic itself is translated from
`codex_tool.py`.
-/

namespace Codex

/-- Python strings are modelled as lists of characters. -/
abbrev Str := List Char

/-- Whitespace characters removed by Python `str.strip()` (ASCII subset). -/
def isPySpace (c : Char) : Bool :=
  c = ' ' || c = '\t' || c = '\n' || c = '\r' || c = '\x0b' || c = '\x0c'

/-- Python `value.strip()`: remove leading and trailing whitespace. -/
def pyStrip (s : Str) : Str :=
  ((s.dropWhile isPySpace).reverse.dropWhile isPySpace).reverse

/-- The opening-brace character, `"\x7b"`. -/
def lbr : Char := '\x7b'

/-- The closing-brace character, `"\x7d"`. -/
def rbr : Char := '\x7d'

/-- JSON values (the `Any` values that flow through span data and tool
results).  Numbers are modelled by integers; the adapter never produces
fractional numbers in the structures verified here. -/
inductive JsonValue where
  | null
  | bool (b : Bool)
  | int (n : Int)
  | str (s : Str)
  | arr (items : List JsonValue)
  | obj (fields : List (Str × JsonValue))

/-- Decimal digit character for `k < 10` (by case, avoiding `Char.ofNat`). -/
def digitChar (k : Nat) : Char :=
  match k with
  | 0 => '0' | 1 => '1' | 2 => '2' | 3 => '3' | 4 => '4'
  | 5 => '5' | 6 => '6' | 7 => '7' | 8 => '8' | _ => '9'

/-- Decimal digits of `n`, with explicit fuel (any `fuel > n` is enough,
since `n / 10 < n` for `n ≥ 10`). -/
def natToStrAux : Nat → Nat → Str
  | 0, _ => []
  | fuel + 1, n =>
    if n < 10 then [digitChar n]
    else natToStrAux fuel (n / 10) ++ [digitChar (n % 10)]

/-- Decimal rendering of a natural number, as Python `str(n)`. -/
def natToStr (n : Nat) : Str := natToStrAux (n + 1) n

/-- Decimal rendering of an integer, as Python `str(n)` / `json.dumps(n)`. -/
def intToStr (n : Int) : Str :=
  if n < 0 then '-' :: natToStr n.natAbs else natToStr n.toNat

/-- Lowercase hexadecimal digit for `k < 16`. -/
def hexDigitChar (k : Nat) : Char :=
  match k with
  | 0 => '0' | 1 => '1' | 2 => '2' | 3 => '3' | 4 => '4'
  | 5 => '5' | 6 => '6' | 7 => '7' | 8 => '8' | 9 => '9'
  | 10 => 'a' | 11 => 'b' | 12 => 'c' | 13 => 'd' | 14 => 'e' | _ => 'f'

/-- Four lowercase hex digits of `n < 0x10000`, as in `\uXXXX` escapes. -/
def hex4 (n : Nat) : Str :=
  [hexDigitChar (n / 4096 % 16), hexDigitChar (n / 256 % 16),
   hexDigitChar (n / 16 % 16), hexDigitChar (n % 16)]

/-- Escape of one character inside a JSON string literal, following
`json.dumps` with `ensure_ascii=True`: printable ASCII other than the
quote and the backslash is kept verbatim, the standard short escapes
are used for the common control characters, everything else becomes
`\uXXXX` (with a surrogate pair beyond the BMP). -/
def escapeChar (c : Char) : Str :=
  if c = '"' then ['\\', '"']
  else if c = '\\' then ['\\', '\\']
  else if c = '\x08' then ['\\', 'b']
  else if c = '\x0c' then ['\\', 'f']
  else if c = '\n' then ['\\', 'n']
  else if c = '\r' then ['\\', 'r']
  else if c = '\t' then ['\\', 't']
  else if c.toNat < 0x20 then '\\' :: 'u' :: hex4 c.toNat
  else if c.toNat ≤ 0x7e then [c]
  else if c.toNat < 0x10000 then '\\' :: 'u' :: hex4 c.toNat
  else
    let v := c.toNat - 0x10000
    ('\\' :: 'u' :: hex4 (0xd800 + v / 0x400)) ++ ('\\' :: 'u' :: hex4 (0xdc00 + v % 0x400))

/-- Escaped body of a JSON string literal. -/
def escapeStr (s : Str) : Str := (s.map escapeChar).flatten

/-- JSON string literal for `s` (quotes included). -/
def dumpStr (s : Str) : Str := '"' :: escapeStr s ++ ['"']

mutual

/-- Model of `json.dumps(value, ensure_ascii=True, separators=(",", ":"))`:
compact serialization with ASCII-only output. -/
def jsonDumps : JsonValue → Str
  | .null => "null".toList
  | .bool true => "true".toList
  | .bool false => "false".toList
  | .int n => intToStr n
  | .str s => dumpStr s
  | .arr items => '[' :: dumpsArr items ++ [']']
  | .obj fields => lbr :: dumpsObj fields ++ [rbr]

/-- Comma-separated serialization of array elements. -/
def dumpsArr : List JsonValue → Str
  | [] => []
  | [v] => jsonDumps v
  | v :: rest => jsonDumps v ++ ',' :: dumpsArr rest

/-- Comma-separated serialization of object members. -/
def dumpsObj : List (Str × JsonValue) → Str
  | [] => []
  | [(k, v)] => dumpStr k ++ ':' :: jsonDumps v
  | (k, v) :: rest => dumpStr k ++ ':' :: jsonDumps v ++ ',' :: dumpsObj rest

end

/-- Model of `_json_char_size`: length of the compact JSON encoding.
(The Python fallback `len(str(value))` for unserializable values is
unreachable in this model: every `JsonValue` serializes.) -/
def json_char_size (v : JsonValue) : Nat := (jsonDumps v).length

/-- Numeric value of a decimal digit character, if it is one. -/
def digitVal (c : Char) : Option Nat :=
  if 48 ≤ c.toNat ∧ c.toNat ≤ 57 then some (c.toNat - 48) else none

/-- Numeric value of a hexadecimal digit character, if it is one. -/
def hexVal (c : Char) : Option Nat :=
  if 48 ≤ c.toNat ∧ c.toNat ≤ 57 then some (c.toNat - 48)
  else if 97 ≤ c.toNat ∧ c.toNat ≤ 102 then some (c.toNat - 87)
  else if 65 ≤ c.toNat ∧ c.toNat ≤ 70 then some (c.toNat - 55)
  else none

/-- Greedy decimal scan: consume leading digits, accumulating their value. -/
def parseNatAux : Str → Nat → Nat × Str
  | [], acc => (acc, [])
  | c :: rest, acc =>
    match digitVal c with
    | some d => parseNatAux rest (acc * 10 + d)
    | none => (acc, c :: rest)

/-- Parse a decimal natural number (at least one digit required). -/
def parseNatStrict (s : Str) : Option (Nat × Str) :=
  match s with
  | c :: rest =>
    match digitVal c with
    | some d => some (parseNatAux rest d)
    | none => none
  | [] => none

/-- Parse exactly four hexadecimal digits. -/
def parseHex4 : Str → Option (Nat × Str)
  | a :: b :: c :: d :: rest =>
    match hexVal a, hexVal b, hexVal c, hexVal d with
    | some va, some vb, some vc, some vd =>
      some (((va * 16 + vb) * 16 + vc) * 16 + vd, rest)
    | _, _, _, _ => none
  | _ => none

/-- Prepend a decoded character to a string-parse result. -/
def consS (c : Char) (r : Option (Str × Str)) : Option (Str × Str) :=
  r.map fun p => (c :: p.1, p.2)

/-- Body of a JSON string literal (after the opening quote), fuelled by the
number of remaining input characters; every step consumes at least one. -/
def parseStrBodyAux : Nat → Str → Option (Str × Str)
  | 0, _ => none
  | fuel + 1, s =>
    match s with
    | [] => none
    | c :: rest =>
      if c = '"' then some ([], rest)
      else if c = '\\' then
        match rest with
        | [] => none
        | e :: rest2 =>
          if e = '"' then consS '"' (parseStrBodyAux fuel rest2)
          else if e = '\\' then consS '\\' (parseStrBodyAux fuel rest2)
          else if e = '/' then consS '/' (parseStrBodyAux fuel rest2)
          else if e = 'b' then consS '\x08' (parseStrBodyAux fuel rest2)
          else if e = 'f' then consS '\x0c' (parseStrBodyAux fuel rest2)
          else if e = 'n' then consS '\n' (parseStrBodyAux fuel rest2)
          else if e = 'r' then consS '\r' (parseStrBodyAux fuel rest2)
          else if e = 't' then consS '\t' (parseStrBodyAux fuel rest2)
          else if e = 'u' then
            match parseHex4 rest2 with
            | none => none
            | some (n, rest3) =>
              if 0xd800 ≤ n ∧ n ≤ 0xdbff then
                match rest3 with
                | c1 :: c2 :: rest4 =>
                  if c1 = '\\' ∧ c2 = 'u' then
                    match parseHex4 rest4 with
                    | none => none
                    | some (m, rest5) =>
                      if 0xdc00 ≤ m ∧ m ≤ 0xdfff then
                        consS (Char.ofNat (0x10000 + (n - 0xd800) * 0x400 + (m - 0xdc00)))
                          (parseStrBodyAux fuel rest5)
                      else none
                  else none
                | _ => none
              else consS (Char.ofNat n) (parseStrBodyAux fuel rest3)
          else none
      else consS c (parseStrBodyAux fuel rest)

/-- Parse the body of a JSON string literal (after the opening quote). -/
def parseStrBody (s : Str) : Option (Str × Str) := parseStrBodyAux s.length s

/-- Match a literal continuation (used for the `null`/`true`/`false`
keywords). -/
def expectLit (lit : Str) (s : Str) : Option Str :=
  if lit.isPrefixOf s then some (s.drop lit.length) else none

mutual

/-- Parse one JSON value from the front of the input.  The fuel bounds the
recursion depth through nested arrays and objects. -/
def parseValue : Nat → Str → Option (JsonValue × Str)
  | 0, _ => none
  | fuel + 1, s =>
    match s with
    | [] => none
    | c :: rest =>
      if c = 'n' then (expectLit "ull".toList rest).map fun r => (.null, r)
      else if c = 't' then (expectLit "rue".toList rest).map fun r => (.bool true, r)
      else if c = 'f' then (expectLit "alse".toList rest).map fun r => (.bool false, r)
      else if c = '"' then (parseStrBody rest).map fun p => (.str p.1, p.2)
      else if c = '-' then (parseNatStrict rest).map fun p => (.int (-(p.1 : Int)), p.2)
      else if c = '[' then
        match rest with
        | [] => none
        | r :: rest2 =>
          if r = ']' then some (.arr [], rest2)
          else (parseElems fuel (r :: rest2)).map fun p => (.arr p.1, p.2)
      else if c = lbr then
        match rest with
        | [] => none
        | r :: rest2 =>
          if r = rbr then some (.obj [], rest2)
          else (parseMembers fuel (r :: rest2)).map fun p => (.obj p.1, p.2)
      else if (digitVal c).isSome then
        (parseNatStrict (c :: rest)).map fun p => (.int (p.1 : Int), p.2)
      else none

/-- Parse the elements of a non-empty JSON array (after `[`). -/
def parseElems : Nat → Str → Option (List JsonValue × Str)
  | 0, _ => none
  | fuel + 1, s =>
    match parseValue fuel s with
    | none => none
    | some (v, rest) =>
      match rest with
      | ',' :: rest2 => (parseElems fuel rest2).map fun p => (v :: p.1, p.2)
      | ']' :: rest2 => some ([v], rest2)
      | _ => none

/-- Parse the members of a non-empty JSON object (after the opening brace). -/
def parseMembers : Nat → Str → Option (List (Str × JsonValue) × Str)
  | 0, _ => none
  | fuel + 1, s =>
    match s with
    | '"' :: rest =>
      (match parseStrBody rest with
       | none => none
       | some (k, rest2) =>
         match rest2 with
         | ':' :: rest3 =>
           (match parseValue fuel rest3 with
            | none => none
            | some (v, rest4) =>
              match rest4 with
              | ',' :: rest5 => (parseMembers fuel rest5).map fun p => ((k, v) :: p.1, p.2)
              | c :: rest5 => if c = rbr then some ([(k, v)], rest5) else none
              | [] => none)
         | _ => none)
    | _ => none

end

/-- Model of `json.loads` on compact JSON text: parse one value and require
the input to be fully consumed. -/
def jsonParse (s : Str) : Option JsonValue :=
  match parseValue (s.length + 1) s with
  | some (v, []) => some v
  | _ => none

/-- Modelled from the spec: the `Usage` value of the missing `events`
module — "input tokens, cached input tokens, output tokens — emitted once
per completed turn" (spec section 3). -/
structure Usage where
  input_tokens : Int
  cached_input_tokens : Int
  output_tokens : Int
deriving DecidableEq, Repr

/-- Modelled from the spec: `Usage.as_dict`, the dictionary form used by
`CodexToolResult.as_dict`; field names follow the wire format of the
`turn.completed` usage payload. -/
def Usage.as_dict (u : Usage) : JsonValue :=
  .obj [("input_tokens".toList, .int u.input_tokens),
        ("cached_input_tokens".toList, .int u.cached_input_tokens),
        ("output_tokens".toList, .int u.output_tokens)]

/-- The host framework's cumulative usage shape targeted by
`_to_agent_usage` (`agents.usage.Usage` together with its
`InputTokensDetails`/`OutputTokensDetails` sub-fields). -/
structure AgentsUsage where
  requests : Nat
  input_tokens : Int
  output_tokens : Int
  total_tokens : Int
  cached_tokens : Int
  reasoning_tokens : Int
deriving DecidableEq, Repr

/-- Model of `_to_agent_usage`. -/
def to_agent_usage (usage : Usage) : AgentsUsage :=
  { requests := 1
    input_tokens := usage.input_tokens
    output_tokens := usage.output_tokens
    total_tokens := usage.input_tokens + usage.output_tokens
    cached_tokens := usage.cached_input_tokens
    reasoning_tokens := 0 }

/-- The marker `f"... [truncated, {len(value)} chars]"` appended by
`_truncate_span_string`. -/
def truncSuffix (n : Nat) : Str :=
  "... [truncated, ".toList ++ natToStr n ++ " chars]".toList

/-- Model of `_truncate_span_string` (`max_prefix = max_chars - len(suffix)`
is the `maxPrefix` expression below). -/
def truncate_span_string (value : Str) (maxChars : Option Int) : Str :=
  match maxChars with
  | none => value
  | some mc =>
    if mc ≤ 0 then []
    else if (value.length : Int) ≤ mc then value
    else if mc - ((truncSuffix value.length).length : Int) ≤ 0 then value.take mc.toNat
    else value.take (mc - ((truncSuffix value.length).length : Int)).toNat ++
      truncSuffix value.length

/-- Model of `_truncate_span_value`.  `None`, booleans and numbers pass
through unchanged; strings are truncated; other values are serialized and,
when over budget, replaced by a preview structure. -/
def truncate_span_value (value : JsonValue) (maxChars : Option Int) : JsonValue :=
  match maxChars with
  | none => value
  | some mc =>
    match value with
    | .null => value
    | .bool _ => value
    | .int _ => value
    | .str s => .str (truncate_span_string s (some mc))
    | v =>
      let encoded := jsonDumps v
      if (encoded.length : Int) ≤ mc then v
      else
        .obj [("preview".toList, .str (truncate_span_string encoded (some mc))),
              ("truncated".toList, .bool true),
              ("original_length".toList, .int encoded.length)]

/-- Model of `_normalize_thread_id` (for string-or-absent inputs; passing a
non-string raises a `UserError` and is outside this typed model). -/
def normalize_thread_id (value : Option Str) : Option Str :=
  match value with
  | none => none
  | some s =>
    let normalized := pyStrip s
    if normalized = [] then none else some normalized

/-- Run contexts are modelled by their read interface: a lookup from keys
to optional string values (`None` contexts are `none`). -/
abbrev RunContext := Option (Str → Option Str)

/-- Model of `_read_thread_id_from_run_context` (for string-or-absent
stored values; a stored non-string raises and is outside this model). -/
def read_thread_id_from_run_context (context : RunContext) (key : Str) : Option Str :=
  match context with
  | none => none
  | some ctx =>
    match ctx key with
    | none => none
    | some value =>
      let normalized := pyStrip value
      if normalized = [] then none else some normalized

/-- Model of `_resolve_call_thread_id`. -/
def resolve_call_thread_id (argsThreadId : Option Str) (ctx : RunContext)
    (configuredThreadId : Option Str) (useRunContextThreadId : Bool)
    (runContextThreadIdKey : Str) : Option Str :=
  match normalize_thread_id argsThreadId with
  | some explicitThreadId => some explicitThreadId
  | none =>
    if useRunContextThreadId then
      match read_thread_id_from_run_context ctx runContextThreadIdKey with
      | some contextThreadId => some contextThreadId
      | none => configuredThreadId
    else configuredThreadId

/-- The constant `DEFAULT_CODEX_TOOL_NAME`. -/
def DEFAULT_CODEX_TOOL_NAME : Str := "codex".toList

/-- The constant `CODEX_TOOL_NAME_PREFIX`. -/
def CODEX_TOOL_NAME_PREFIX : Str := "codex_".toList

/-- Configured tool names as Python values: absent, a string, or any
non-string value. -/
inductive ConfiguredName where
  | absent
  | str (s : Str)
  | nonString
deriving DecidableEq

/-- Model of `_resolve_codex_tool_name`; `.error ()` stands for the raised
`UserError`. -/
def resolve_codex_tool_name (configuredName : ConfiguredName) : Except Unit Str :=
  match configuredName with
  | .absent => .ok DEFAULT_CODEX_TOOL_NAME
  | .nonString => .error ()
  | .str s =>
    let normalized := pyStrip s
    if normalized = [] then .error ()
    else if normalized ≠ DEFAULT_CODEX_TOOL_NAME ∧
        ¬ (CODEX_TOOL_NAME_PREFIX.isPrefixOf normalized = true) then .error ()
    else .ok normalized

/-- Python truthiness of an optional string (`if thread_id:`). -/
def pyTruthy (s : Option Str) : Bool :=
  match s with
  | none => false
  | some s => s ≠ []

/-- A `Thread` handle as seen by `_get_or_create_persisted_thread`: only
its (possibly unknown) identifier matters. -/
structure SThread where
  id : Option Str
deriving DecidableEq

/-- Outcome of persisted-thread resolution: the cached thread is reused,
or a thread is obtained from `_get_thread`. -/
inductive PersistResolution where
  | reuseExisting
  | getThread
deriving DecidableEq, Repr

/-- Model of `_get_or_create_persisted_thread`; `.error ()` stands for the
raised `UserError` ("persist_session=true ... already has an active
thread"). -/
def get_or_create_persisted_thread (threadId : Option Str)
    (existingThread : Option SThread) : Except Unit PersistResolution :=
  match existingThread with
  | some t =>
    if pyTruthy threadId then
      if pyTruthy t.id ∧ t.id ≠ threadId then .error ()
      else .ok .reuseExisting
    else .ok .reuseExisting
  | none => .ok .getThread

/-- Model of the `CodexToolResult` dataclass. -/
structure CodexToolResult where
  thread_id : Option Str
  response : Str
  usage : Option Usage
deriving DecidableEq

/-- Model of `CodexToolResult.as_dict`. -/
def CodexToolResult.as_dict (r : CodexToolResult) : JsonValue :=
  .obj [("thread_id".toList, match r.thread_id with | none => .null | some t => .str t),
        ("response".toList, .str r.response),
        ("usage".toList, match r.usage with | none => .null | some u => u.as_dict)]

/-- Model of `CodexToolResult.__str__`: `json.dumps(self.as_dict())`. -/
def CodexToolResult.toText (r : CodexToolResult) : Str := jsonDumps r.as_dict

/-- Modelled from the spec: the item union of the missing `items` module
(spec section 3) — agent message, command execution, MCP tool call,
reasoning, each with a stable identifier, plus the forward-compatibility
fallback.  Only the fields consumed by `codex_tool.py` are carried. -/
inductive ThreadItem where
  | agentMessage (id : Str) (text : Str)
  | commandExecution (id : Str) (command : Str) (aggregatedOutput : Option Str)
      (exitCode : Option Int) (status : Str)
  | mcpToolCall (id : Str) (server : Str) (tool : Str) (status : Str)
      (error : Option Str)
  | reasoning (id : Str) (text : Str)
  | unknownItem (id : Str)
deriving DecidableEq

/-- The `id` field common to all items. -/
def ThreadItem.itemId : ThreadItem → Str
  | .agentMessage id _ => id
  | .commandExecution id _ _ _ _ => id
  | .mcpToolCall id _ _ _ _ => id
  | .reasoning id _ => id
  | .unknownItem id => id

/-- Model of `is_agent_message_item`. -/
def is_agent_message_item : ThreadItem → Bool
  | .agentMessage _ _ => true
  | _ => false

/-- Whether `_handle_item_started` opens a telemetry span for this item:
command-execution, MCP-tool-call and reasoning items with a non-empty id. -/
def opensSpan (item : ThreadItem) : Bool :=
  item.itemId ≠ [] &&
    match item with
    | .commandExecution _ _ _ _ _ => true
    | .mcpToolCall _ _ _ _ _ => true
    | .reasoning _ _ => true
    | _ => false

/-- Modelled from the spec: the event union of the missing `events` module
(spec sections 3 and 4.4), as consumed by `_consume_events` after
`coerce_thread_event`. -/
inductive ThreadEvent where
  | threadStarted (threadId : Str)
  | turnStarted
  | itemStarted (item : ThreadItem)
  | itemUpdated (item : ThreadItem)
  | itemCompleted (item : ThreadItem)
  | turnCompleted (usage : Usage)
  | turnFailed (errorMessage : Str)
  | threadError (message : Str)
  | unknownEvent
deriving DecidableEq

/-- One telemetry-span lifecycle operation, with a token identifying the
span instance (fresh token per `custom_span(...)` creation). -/
inductive SpanAction where
  | openSpan (tok : Nat)
  | finishSpan (tok : Nat)
deriving DecidableEq, Repr

/-- Association-list update with Python `dict` semantics: an existing key
keeps its position, a new key is appended. -/
def setKey {β : Type} : List (Str × β) → Str → β → List (Str × β)
  | [], k, v => [(k, v)]
  | (k0, v0) :: rest, k, v =>
    if k0 = k then (k0, v) :: rest else (k0, v0) :: setKey rest k v

/-- Association-list removal (`dict.pop(key, None)`). -/
def eraseKey {β : Type} : List (Str × β) → Str → List (Str × β)
  | [], _ => []
  | (k0, v0) :: rest, k => if k0 = k then rest else (k0, v0) :: eraseKey rest k

/-- The loop state of `_consume_events`: the open spans keyed by item id
(`active_spans`), a fresh-token counter, the emitted span operations, the
running final response, the captured usage and the resolved thread id
(which also mirrors `resolved_thread_id_holder["thread_id"]`; the two are
kept equal by the code). -/
structure ConsumeState where
  activeSpans : List (Str × Nat)
  nextTok : Nat
  trace : List SpanAction
  finalResponse : Str
  usage : Option Usage
  resolvedThreadId : Option Str
deriving DecidableEq

/-- Loop state at entry of `_consume_events`: `resolved_thread_id` starts
as `thread.id`, falling back to the holder value set by the caller. -/
def initConsumeState (threadIdAtStart holderInit : Option Str) : ConsumeState :=
  { activeSpans := []
    nextTok := 0
    trace := []
    finalResponse := []
    usage := none
    resolvedThreadId := match threadIdAtStart with
                        | some t => some t
                        | none => holderInit }

/-- Model of `_build_default_response`. -/
def build_default_response (argsHasInputs : Bool) : Str :=
  if argsHasInputs then "Codex task completed with inputs.".toList
  else "Codex task completed with no inputs.".toList

/-- The message of the `UserError` raised on a `turn.failed` event. -/
def turnFailedMessage (error : Str) : Str :=
  "Codex turn failed".toList ++ (if error ≠ [] then ':' :: ' ' :: error else [])

/-- The message of the `UserError` raised on a stream `error` event. -/
def streamErrorMessage (message : Str) : Str :=
  "Codex stream error: ".toList ++ message

/-- One iteration of the `_consume_events` loop: the state update performed
for one event, and the raised error message if the event is `turn.failed`
or a stream error.  Span bookkeeping follows `_handle_item_started` (open
a span for command/MCP/reasoning items with a non-empty id, overwriting
any tracked span of the same id) and `_handle_item_completed` (finish and
drop the tracked span of the item's id, whatever the item type). -/
def consumeStep (st : ConsumeState) (event : ThreadEvent) :
    ConsumeState × Option Str :=
  match event with
  | .itemStarted item =>
    if opensSpan item then
      ({ st with
          activeSpans := setKey st.activeSpans item.itemId st.nextTok
          nextTok := st.nextTok + 1
          trace := st.trace ++ [.openSpan st.nextTok] }, none)
    else (st, none)
  | .itemUpdated _ => (st, none)
  | .itemCompleted item =>
    let st1 :=
      if item.itemId ≠ [] then
        match List.lookup item.itemId st.activeSpans with
        | some tok =>
          { st with
              trace := st.trace ++ [.finishSpan tok]
              activeSpans := eraseKey st.activeSpans item.itemId }
        | none => st
      else st
    match item with
    | .agentMessage _ text => ({ st1 with finalResponse := text }, none)
    | _ => (st1, none)
  | .turnCompleted usage => ({ st with usage := some usage }, none)
  | .threadStarted threadId => ({ st with resolvedThreadId := some threadId }, none)
  | .turnFailed error => (st, some (turnFailedMessage error))
  | .threadError message => (st, some (streamErrorMessage message))
  | .turnStarted => (st, none)
  | .unknownEvent => (st, none)

/-- The `_consume_events` loop over the event sequence: stops at the first
raising event, returning the state reached and the raised message. -/
def consumeLoop : List ThreadEvent → ConsumeState → ConsumeState × Option Str
  | [], st => (st, none)
  | event :: rest, st =>
    match consumeStep st event with
    | (st1, some msg) => (st1, some msg)
    | (st1, none) => consumeLoop rest st1

/-- The `finally` block of `_consume_events`: every still-open span is
finished (in tracking order) and the tracking table is cleared. -/
def finalizeSpans (st : ConsumeState) : ConsumeState :=
  { st with
      trace := st.trace ++ st.activeSpans.map (fun kv => .finishSpan kv.2)
      activeSpans := [] }

/-- Successful result of `_consume_events`: final response, usage, resolved
thread id, plus the span-operation trace (for the span invariants). -/
structure ConsumeOk where
  response : Str
  usage : Option Usage
  threadId : Option Str
  trace : List SpanAction
deriving DecidableEq

/-- Failure of `_consume_events`: the raised message, the thread id left in
`resolved_thread_id_holder`, and the span-operation trace. -/
structure ConsumeErr where
  message : Str
  holderThreadId : Option Str
  trace : List SpanAction
deriving DecidableEq

/-- Model of `_consume_events`: run the loop, always run the `finally`
block, and on normal completion substitute the synthesized default when no
non-empty agent-message text was captured. -/
def consume_events (events : List ThreadEvent) (threadIdAtStart holderInit : Option Str)
    (argsHasInputs : Bool) : Except ConsumeErr ConsumeOk :=
  let r := consumeLoop events (initConsumeState threadIdAtStart holderInit)
  let st := finalizeSpans r.1
  match r.2 with
  | some msg => .error ⟨msg, st.resolvedThreadId, st.trace⟩
  | none =>
    let finalResponse :=
      if st.finalResponse = [] then build_default_response argsHasInputs
      else st.finalResponse
    .ok ⟨finalResponse, st.usage, st.resolvedThreadId, st.trace⟩

/-- The span-operation trace produced by one turn of the event loop,
whether it ends normally or by exception. -/
def spanTrace (events : List ThreadEvent) : List SpanAction :=
  (finalizeSpans (consumeLoop events (initConsumeState none none)).1).trace

/-- The agent-message text carried by an `item.completed` event, if any. -/
def agentMessageTextOf : ThreadEvent → Option Str
  | .itemCompleted (.agentMessage _ text) => some text
  | _ => none

/-- Text of the last completed agent-message item of the sequence, if any
(the quantity the spec's aggregation property talks about). -/
def lastAgentMessageText (events : List ThreadEvent) : Option Str :=
  events.foldr (fun event acc => acc.orElse fun _ => agentMessageTextOf event) none

/-- Whether an event makes the `_consume_events` loop raise. -/
def isFailureEvent : ThreadEvent → Bool
  | .turnFailed _ => true
  | .threadError _ => true
  | _ => false

/-- No `turn.failed` or stream-error event occurs in the sequence (so the
event loop consumes it completely). -/
def noFailureEvents (events : List ThreadEvent) : Bool :=
  events.all fun event => !isFailureEvent event

/-- Whether `_store_thread_id_in_run_context` would raise when invoked for
a present thread id.  This depends only on the caller-supplied run-context
object (mutability, writable attribute), which is external to the adapter,
so it is abstracted to a two-valued outcome. -/
inductive StoreOutcome where
  | success
  | failure
deriving DecidableEq, Repr

/-- Boolean view of a store outcome failing. -/
def storeFails : StoreOutcome → Bool
  | .failure => true
  | .success => false

/-- Observable behaviour of `_try_store_thread_id_in_run_context_after_error`:
whether the write was attempted, and whether a secondary failure was caught
and logged.  The function always returns normally — its Lean type is total,
which is exactly the "never propagated" guarantee. -/
structure AfterErrorStore where
  attempted : Bool
  failureLogged : Bool
deriving DecidableEq, Repr

/-- Model of `_try_store_thread_id_in_run_context_after_error`. -/
def try_store_thread_id_in_run_context_after_error (enabled : Bool)
    (threadId : Option Str) (store : StoreOutcome) : AfterErrorStore :=
  if ¬ enabled = true ∨ threadId = none then ⟨false, false⟩
  else
    match store with
    | .success => ⟨true, false⟩
    | .failure => ⟨true, true⟩

/-- Result of one `_on_invoke_tool` call, at the granularity needed for the
failure-path claims: success, a failure mapped through the configured
failure handler, or a re-raised exception (no handler configured).  The
failure constructors carry the observable outcome of the after-error store
attempt. -/
inductive InvokeOutcome where
  | success (result : ConsumeOk)
  | handledFailure (handlerResult : Str) (storeRetry : AfterErrorStore)
  | raisedConsumeError (message : Str) (storeRetry : AfterErrorStore)
  | raisedStoreError (storeRetry : AfterErrorStore)
deriving DecidableEq

/-- Model of `_on_invoke_tool` from the start of event consumption onward:
consume the stream; on success store the resolved id in the run context
(which itself may raise, feeding the same `except` branch); on any
exception, best-effort re-store the thread id recorded in the holder, then
delegate to the failure handler or re-raise. -/
def on_invoke_tool_model (events : List ThreadEvent)
    (threadIdAtStart holderInit : Option Str) (argsHasInputs : Bool)
    (useRunContextThreadId : Bool) (storeOnSuccess storeAfterError : StoreOutcome)
    (failureHandler : Option Str) : InvokeOutcome :=
  match consume_events events threadIdAtStart holderInit argsHasInputs with
  | .ok r =>
    if useRunContextThreadId = true ∧ r.threadId ≠ none then
      match storeOnSuccess with
      | .success => .success r
      | .failure =>
        let retry := try_store_thread_id_in_run_context_after_error
          useRunContextThreadId r.threadId storeAfterError
        match failureHandler with
        | some h => .handledFailure h retry
        | none => .raisedStoreError retry
    else .success r
  | .error e =>
    let retry := try_store_thread_id_in_run_context_after_error
      useRunContextThreadId e.holderThreadId storeAfterError
    match failureHandler with
    | some h => .handledFailure h retry
    | none => .raisedConsumeError e.message retry

/-- The constant `SPAN_TRIM_KEYS` (trim priority order). -/
def SPAN_TRIM_KEYS : List Str :=
  ["arguments".toList, "command".toList, "output".toList, "result".toList,
   "error".toList, "text".toList, "changes".toList, "items".toList]

/-- Whether a value is the empty string (the only value that compares equal
to `""` among the modelled values). -/
def isEmptyStrVal : JsonValue → Bool
  | .str [] => true
  | _ => false

/-- Whether a value is `None`. -/
def isNullVal : JsonValue → Bool
  | .null => true
  | _ => false

/-- Model of `_drop_empty_string_fields`. -/
def drop_empty_string_fields (data : List (Str × JsonValue)) : List (Str × JsonValue) :=
  data.filter fun kv => ¬ isEmptyStrVal kv.2 = true

/-- Model of `_stringify_span_value`. -/
def stringify_span_value : JsonValue → Str
  | .null => []
  | .str s => s
  | v => jsonDumps v

/-- Serialized size of a field mapping (`_json_char_size` of the dict). -/
def objSize (fields : List (Str × JsonValue)) : Nat := json_char_size (.obj fields)

/-- Lookup with default (`dict.get(key, default)`). -/
def lookupD {β : Type} (l : List (Str × β)) (k : Str) (d : β) : β :=
  (List.lookup k l).getD d

/-- The `while base_size > max_chars and kept_keys` loop: drop
lowest-priority keys (the kept keys are passed reversed, so the head is
the lowest-priority one) from both the base skeleton and the working
mapping until the empty base fits. -/
def dropKeysLoop (mc : Int) :
    List Str → List (Str × JsonValue) → List (Str × JsonValue) →
    List Str × List (Str × JsonValue) × List (Str × JsonValue)
  | [], base, trimmed => ([], base, trimmed)
  | k :: ks, base, trimmed =>
    if (objSize base : Int) ≤ mc then (k :: ks, base, trimmed)
    else dropKeysLoop mc ks (eraseKey base k) (eraseKey trimmed k)

/-- Stable insertion into a weight-descending list (ties keep the original
order, as Python's stable `sorted(..., reverse=True)`). -/
def insertDesc (w : Str → Nat) (k : Str) : List Str → List Str
  | [] => [k]
  | x :: xs => if w x ≤ w k then k :: x :: xs else x :: insertDesc w k xs

/-- Stable sort, descending by weight. -/
def sortDescBy (w : Str → Nat) : List Str → List Str
  | [] => []
  | x :: xs => insertDesc w x (sortDescBy w xs)

/-- Budget increment for one key in a budget table. -/
def bumpBudget (budgets : List (Str × Nat)) (k : Str) : List (Str × Nat) :=
  setKey budgets k (lookupD budgets k 0 + 1)

/-- The round-robin leftover-distribution loop (`while leftover > 0`):
repeatedly grant one character to the next expandable field in
weight-descending order. -/
def roundRobin (ordered : List Str) (valueLen : Str → Nat) :
    Nat → Nat → List (Str × Nat) → List (Str × Nat)
  | 0, _, budgets => budgets
  | leftover + 1, idx, budgets =>
    let expandable := ordered.filter fun k => lookupD budgets k 0 < valueLen k
    match expandable with
    | [] => budgets
    | e :: es =>
      roundRobin ordered valueLen leftover (idx + 1)
        (bumpBudget budgets ((e :: es).getD (idx % (e :: es).length) e))

/-- Length of the string form of `trimmed.get(key, "")` in the final shrink
loop.  (By construction every kept key holds a string there; the non-string
branch is unreachable.) -/
def strLenAt (trimmed : List (Str × JsonValue)) (k : Str) : Nat :=
  match List.lookup k trimmed with
  | some (.str s) => s.length
  | some v => (jsonDumps v).length
  | none => 0

/-- First key of maximal current length (Python `max(..., key=...)` keeps
the first maximum). -/
def maxKeyByLen (trimmed : List (Str × JsonValue)) : List Str → Str
  | [] => []
  | k :: ks =>
    ks.foldl (fun best k2 => if strLenAt trimmed best < strLenAt trimmed k2 then k2 else best) k

/-- The final `while size > max_chars and kept_keys` loop: shrink the
largest remaining field by one character (re-truncating its source string),
dropping it from the kept list once empty.  The fuel is a strict upper
bound on the number of iterations (each one shrinks the total kept length
or the kept list). -/
def shrinkLoop (mc : Int) (values : List (Str × Str)) :
    Nat → List Str → List (Str × JsonValue) → List Str × List (Str × JsonValue)
  | 0, kept, trimmed => (kept, trimmed)
  | fuel + 1, kept, trimmed =>
    if (objSize trimmed : Int) ≤ mc then (kept, trimmed)
    else
      match kept with
      | [] => ([], trimmed)
      | k0 :: ks =>
        let key := maxKeyByLen trimmed (k0 :: ks)
        let currentLen := strLenAt trimmed key
        if 0 < currentLen then
          shrinkLoop mc values fuel kept
            (setKey trimmed key
              (.str (truncate_span_string (lookupD values key [])
                (some ((currentLen : Int) - 1)))))
        else shrinkLoop mc values fuel ((k0 :: ks).erase key) trimmed

/-- Model of `_enforce_span_data_budget`.  The two `while` loops are
expressed with sufficient fuel (each iteration strictly decreases the
corresponding measure); the float expression
`int(remaining * (weight / weight_total))` of the weighted redistribution
is modelled by exact integer arithmetic `remaining * weight / weight_total`
(same value up to float rounding; no claim depends on this branch). -/
def enforce_span_data_budget (data : List (Str × JsonValue))
    (maxChars : Option Int) : List (Str × JsonValue) :=
  match maxChars with
  | none => drop_empty_string_fields data
  | some mc =>
    if mc ≤ 0 then []
    else
      let trimmed := drop_empty_string_fields data
      if (objSize trimmed : Int) ≤ mc then trimmed
      else
        let keptKeys := SPAN_TRIM_KEYS.filter fun k => (List.lookup k trimmed).isSome
        if keptKeys = [] then trimmed
        else
          let base := keptKeys.foldl (fun b k => setKey b k (.str [])) trimmed
          let dropped := dropKeysLoop mc keptKeys.reverse base trimmed
          let keptKeys := dropped.1.reverse
          let base := dropped.2.1
          let trimmed := dropped.2.2
          if mc < (objSize base : Int) then drop_empty_string_fields base
          else
            let values : List (Str × Str) := keptKeys.filterMap fun k =>
              match List.lookup k trimmed with
              | some v =>
                if isEmptyStrVal v || isNullVal v then none
                else some (k, stringify_span_value v)
              | none => none
            let emptyValueKeys := (values.filter fun kv => kv.2 = []).map Prod.fst
            let values := values.filter fun kv => kv.2 ≠ []
            let trimmed := emptyValueKeys.foldl (fun t k => setKey t k (.str [])) trimmed
            let keptKeys := keptKeys.filter fun k =>
              (List.lookup k values).isSome ∨ (List.lookup k trimmed).isSome
            if keptKeys = [] then drop_empty_string_fields base
            else
              let available : Int := mc - (objSize base : Int)
              if available ≤ 0 then drop_empty_string_fields base
              else
                let orderedKeys := SPAN_TRIM_KEYS.filter fun k =>
                  (List.lookup k values).isSome
                let budgets : List (Str × Nat) := values.map fun kv => (kv.1, 0)
                let rb :=
                  if (values.length : Int) ≤ available then
                    (values.foldl (fun b kv => setKey b kv.1 1) budgets,
                     (available - values.length).toNat)
                  else
                    ((orderedKeys.take available.toNat).foldl
                      (fun b k => setKey b k 1) budgets, 0)
                let budgets := rb.1
                let remaining := rb.2
                let argKey := "arguments".toList
                let ar :=
                  match List.lookup argKey values with
                  | some argValue =>
                    if 0 < remaining then
                      let needed : Int :=
                        (argValue.length : Int) - Int.ofNat (lookupD budgets argKey 0)
                      if 0 < needed then
                        let grant := min needed (remaining : Int)
                        (setKey budgets argKey (lookupD budgets argKey 0 + grant.toNat),
                         ((remaining : Int) - grant).toNat)
                      else (budgets, remaining)
                    else (budgets, remaining)
                  | none => (budgets, remaining)
                let budgets := ar.1
                let remaining := ar.2
                let budgets :=
                  if 0 < remaining then
                    let weight : Str → Nat := fun k =>
                      (lookupD values k []).length - lookupD budgets k 0
                    let weightTotal := (values.map fun kv => weight kv.1).sum
                    let budgets :=
                      if 0 < weightTotal then
                        values.foldl
                          (fun b kv =>
                            if weight kv.1 = 0 then b
                            else setKey b kv.1
                              (lookupD b kv.1 0 + remaining * weight kv.1 / weightTotal))
                          budgets
                      else budgets
                    let budgets := values.foldl
                      (fun b kv => setKey b kv.1 (min (lookupD b kv.1 0) kv.2.length))
                      budgets
                    let allocated := (values.map fun kv => lookupD budgets kv.1 0).sum
                    let leftover : Int := available - allocated
                    if 0 < leftover then
                      let ordered := sortDescBy weight (values.map Prod.fst)
                      roundRobin ordered (fun k => (lookupD values k []).length)
                        leftover.toNat 0 budgets
                    else budgets
                  else budgets
                let trimmed := keptKeys.foldl
                  (fun t k =>
                    match List.lookup k values with
                    | some v =>
                      setKey t k
                        (.str (truncate_span_string v (some (Int.ofNat (lookupD budgets k 0)))))
                    | none => setKey t k (.str []))
                  trimmed
                let shrunk := shrinkLoop mc values
                  (objSize trimmed + keptKeys.length + 1) keptKeys trimmed
                let trimmed := shrunk.2
                if (objSize trimmed : Int) ≤ mc then drop_empty_string_fields trimmed
                else drop_empty_string_fields base

/-- Model of `_merge_span_data`: dict merge (updates override in place, new
keys appended) followed by budget enforcement. -/
def merge_span_data (current updates : List (Str × JsonValue))
    (maxChars : Option Int) : List (Str × JsonValue) :=
  enforce_span_data_budget (updates.foldl (fun acc kv => setKey acc kv.1 kv.2) current)
    maxChars

/-- The constant `JSON_PRIMITIVE_TYPES`. -/
def JSON_PRIMITIVE_TYPES : List Str :=
  ["string".toList, "number".toList, "integer".toList, "boolean".toList]

mutual

/-- Structural size of a JSON value (computable fuel for the recursions
over looked-up sub-values below). -/
def jsonSize : JsonValue → Nat
  | .null => 1
  | .bool _ => 1
  | .int _ => 1
  | .str _ => 1
  | .arr items => 1 + jsonSizeList items
  | .obj fields => 1 + jsonSizeFields fields

/-- Structural size of a list of JSON values. -/
def jsonSizeList : List JsonValue → Nat
  | [] => 0
  | v :: rest => jsonSize v + jsonSizeList rest

/-- Structural size of the fields of a JSON object. -/
def jsonSizeFields : List (Str × JsonValue) → Nat
  | [] => 0
  | (_, v) :: rest => jsonSize v + jsonSizeFields rest

end

/-- Model of `_is_valid_field`, fuelled by the size of the value (the
recursion descends into the strictly smaller `items` sub-value, so the
fuel never runs out). -/
def is_valid_field_aux : Nat → JsonValue → Bool
  | 0, _ => false
  | fuel + 1, field =>
    match field with
    | .obj fields =>
      match List.lookup "type".toList fields with
      | some (.str fieldType) =>
        if JSON_PRIMITIVE_TYPES.contains fieldType then
          match List.lookup "enum".toList fields with
          | none => true
          | some (.arr items) =>
            items.all fun item => match item with | .str _ => true | _ => false
          | some _ => false
        else if fieldType = "array".toList then
          match List.lookup "items".toList fields with
          | some items => is_valid_field_aux fuel items
          | none => false
        else false
      | _ => false
    | _ => false

/-- Model of `_is_valid_field`. -/
def is_valid_field (field : JsonValue) : Bool := is_valid_field_aux (jsonSize field) field

/-- One property of an output-schema descriptor (`name`, optional
`description`, `schema`). -/
structure PropertyDescriptor where
  name : Str
  description : Option Str
  schema : JsonValue

/-- An output-schema descriptor (`title?`, `description?`, `properties`,
`required?`). -/
structure SchemaDescriptor where
  title : Option Str
  description : Option Str
  properties : List PropertyDescriptor
  required : Option (List Str)

/-- The property-validation loop of `_validate_descriptor`: every name has
non-empty stripped text and is not a duplicate, every schema is valid. -/
def validateProps : List PropertyDescriptor → List Str → Bool
  | [], _ => true
  | p :: rest, seen =>
    (pyStrip p.name ≠ [] : Bool) && ¬ seen.contains p.name &&
      is_valid_field p.schema && validateProps rest (p.name :: seen)

/-- Model of `_validate_descriptor` as a boolean check (`true` iff the
descriptor is accepted; a `false` stands for the raised `UserError`). -/
def validate_descriptor (d : SchemaDescriptor) : Bool :=
  !d.properties.isEmpty && validateProps d.properties [] &&
    match d.required with
    | none => true
    | some required =>
      required.all fun name => (d.properties.map PropertyDescriptor.name).contains name

/-- Python truthiness of a JSON value (`if field["description"]:`). -/
def pyTruthyVal : JsonValue → Bool
  | .null => false
  | .bool b => b
  | .int n => n ≠ 0
  | .str s => s ≠ []
  | .arr l => !l.isEmpty
  | .obj l => !l.isEmpty

/-- Set a key of a JSON object value (no-op on non-objects). -/
def setObjKey : JsonValue → Str → JsonValue → JsonValue
  | .obj fields, k, v => .obj (setKey fields k v)
  | other, _, _ => other

/-- The Python comparison `field["type"] == "array"`. -/
def typeIsArray (fields : List (Str × JsonValue)) : Bool :=
  match List.lookup "type".toList fields with
  | some (.str t) => t = "array".toList
  | _ => false

/-- Model of `_build_codex_output_schema_field`, fuelled like
`is_valid_field_aux` (the recursion descends into `items`). -/
def build_codex_output_schema_field_aux : Nat → JsonValue → JsonValue
  | 0, _ => .null
  | fuel + 1, field =>
    match field with
    | .obj fields =>
      if typeIsArray fields then
        let schema : List (Str × JsonValue) :=
          [("type".toList, .str "array".toList),
           ("items".toList,
            build_codex_output_schema_field_aux fuel (lookupD fields "items".toList .null))]
        match List.lookup "description".toList fields with
        | some desc =>
          if pyTruthyVal desc then .obj (schema ++ [("description".toList, desc)])
          else .obj schema
        | none => .obj schema
      else
        let result : List (Str × JsonValue) :=
          [("type".toList, lookupD fields "type".toList .null)]
        let result :=
          match List.lookup "description".toList fields with
          | some desc => if pyTruthyVal desc then result ++ [("description".toList, desc)]
                         else result
          | none => result
        match List.lookup "enum".toList fields with
        | some enum => .obj (result ++ [("enum".toList, enum)])
        | none => .obj result
    | _ => .null

/-- Model of `_build_codex_output_schema_field`.  The `.null` fallbacks are
unreachable for descriptors accepted by `_validate_descriptor` (whose
fields are objects carrying the accessed keys). -/
def build_codex_output_schema_field (field : JsonValue) : JsonValue :=
  build_codex_output_schema_field_aux (jsonSize field) field

/-- Model of `_build_codex_output_schema`. -/
def build_codex_output_schema (d : SchemaDescriptor) : JsonValue :=
  let properties : List (Str × JsonValue) :=
    d.properties.foldl
      (fun acc p =>
        let propSchema := build_codex_output_schema_field p.schema
        let propSchema :=
          match p.description with
          | some desc =>
            if desc ≠ [] then setObjKey propSchema "description".toList (.str desc)
            else propSchema
          | none => propSchema
        setKey acc p.name propSchema)
      []
  let required : List Str := d.required.getD []
  let schema : List (Str × JsonValue) :=
    [("type".toList, .str "object".toList),
     ("additionalProperties".toList, .bool false),
     ("properties".toList, .obj properties),
     ("required".toList, .arr (required.map JsonValue.str))]
  let schema :=
    match d.title with
    | some t => if t ≠ [] then schema ++ [("title".toList, .str t)] else schema
    | none => schema
  let schema :=
    match d.description with
    | some desc =>
      if desc ≠ [] then schema ++ [("description".toList, .str desc)] else schema
    | none => schema
  .obj schema

/-!
Theorems.  One theorem per claim (plus, for corrected claims, a
counterexample refuting the claim as stated), with concrete-instance
witnesses for the theorems that carry hypotheses.
-/

/-- C7: for every completed turn whose reported usage has input tokens
`i`, cached input tokens `c` and output tokens `o`, the amount added to
the caller's cumulative usage counter (`ctx.usage.add(_to_agent_usage(u))`)
is exactly requests 1, input `i`, output `o`, total `i + o`, cached
sub-field `c` and reasoning sub-field `0`. -/
theorem c7_usage_mapping (i c o : Int) :
    to_agent_usage ⟨i, c, o⟩ =
      { requests := 1
        input_tokens := i
        output_tokens := o
        total_tokens := i + o
        cached_tokens := c
        reasoning_tokens := 0 } := rfl

/-- C10: tool construction accepts a configured name exactly when its
trimmed form is `"codex"` or starts with `"codex_"`; any other configured
value — empty, whitespace-only, other strings, or a non-string — is
rejected with a configuration error, and an accepted name resolves to its
trimmed form. -/
theorem c10_tool_name_validation :
    (∀ s : Str,
      (resolve_codex_tool_name (.str s)).isOk = true ↔
        (pyStrip s = DEFAULT_CODEX_TOOL_NAME ∨
          CODEX_TOOL_NAME_PREFIX.isPrefixOf (pyStrip s) = true)) ∧
    resolve_codex_tool_name .nonString = .error () ∧
    (∀ s : Str, (resolve_codex_tool_name (.str s)).isOk = true →
      resolve_codex_tool_name (.str s) = .ok (pyStrip s)) := by
  have e : ∀ s : Str, resolve_codex_tool_name (.str s) =
      (if pyStrip s = [] then Except.error ()
       else if pyStrip s ≠ DEFAULT_CODEX_TOOL_NAME ∧
           ¬ (CODEX_TOOL_NAME_PREFIX.isPrefixOf (pyStrip s) = true) then Except.error ()
       else Except.ok (pyStrip s)) := fun _ => rfl
  refine ⟨fun s => ?_, rfl, fun s h => ?_⟩
  · rw [e s]
    by_cases h1 : pyStrip s = []
    · rw [if_pos h1]
      simp only [Except.isOk, Except.toBool]
      constructor
      · intro h; cases h
      · intro h
        rcases h with h | h
        · rw [h1] at h
          exact absurd h (by decide)
        · rw [h1] at h
          exact absurd h (by decide)
    · rw [if_neg h1]
      by_cases h2 : pyStrip s ≠ DEFAULT_CODEX_TOOL_NAME ∧
          ¬ (CODEX_TOOL_NAME_PREFIX.isPrefixOf (pyStrip s) = true)
      · rw [if_pos h2]
        simp only [Except.isOk, Except.toBool]
        constructor
        · intro h; cases h
        · intro h
          rcases h with h | h
          · exact absurd h h2.1
          · exact absurd h h2.2
      · rw [if_neg h2]
        simp only [Except.isOk, Except.toBool]
        constructor
        · intro _
          by_cases h3 : pyStrip s = DEFAULT_CODEX_TOOL_NAME
          · exact Or.inl h3
          · push_neg at h2
            exact Or.inr (h2 h3)
        · intro _; trivial
  · rw [e s] at h ⊢
    by_cases h1 : pyStrip s = []
    · rw [if_pos h1] at h
      simp only [Except.isOk, Except.toBool] at h
      cases h
    · rw [if_neg h1] at h ⊢
      by_cases h2 : pyStrip s ≠ DEFAULT_CODEX_TOOL_NAME ∧
          ¬ (CODEX_TOOL_NAME_PREFIX.isPrefixOf (pyStrip s) = true)
      · rw [if_pos h2] at h
        simp only [Except.isOk, Except.toBool] at h
        cases h
      · rw [if_neg h2]

/-- Witness for C10: the concrete name `" codex_review "` is accepted and
resolves to its trimmed form, while `"helper"` is rejected. -/
theorem c10_tool_name_validation_witness :
    resolve_codex_tool_name (.str " codex_review ".toList) =
      .ok "codex_review".toList ∧
    (resolve_codex_tool_name (.str "helper".toList)).isOk = false := by
  have h := c10_tool_name_validation
  refine ⟨h.2.2 " codex_review ".toList ?_, ?_⟩
  · rw [(h.1 " codex_review ".toList)]
    right
    decide
  · have h2 := h.1 "helper".toList
    rcases hv : (resolve_codex_tool_name (.str "helper".toList)).isOk with _ | _
    · rfl
    · exfalso
      rcases h2.mp hv with hc | hc
      · exact absurd hc (by decide)
      · exact absurd hc (by decide)

/-- C3: thread-id resolution precedence — a non-empty explicit argument id
wins; otherwise, in run-context mode, a non-empty id read from the
run-context bag under the configured key wins; otherwise the resolution
falls back to the tool-configured default (which may be absent, meaning a
new thread). -/
theorem c3_thread_id_precedence (argsThreadId : Option Str) (ctx : RunContext)
    (configured : Option Str) (useRC : Bool) (key : Str) :
    (∀ t, normalize_thread_id argsThreadId = some t →
      resolve_call_thread_id argsThreadId ctx configured useRC key = some t) ∧
    (normalize_thread_id argsThreadId = none → useRC = true →
      ∀ c, read_thread_id_from_run_context ctx key = some c →
        resolve_call_thread_id argsThreadId ctx configured useRC key = some c) ∧
    (normalize_thread_id argsThreadId = none →
      (useRC = false ∨ read_thread_id_from_run_context ctx key = none) →
      resolve_call_thread_id argsThreadId ctx configured useRC key = configured) := by
  refine ⟨fun t ht => ?_, fun hn hrc c hc => ?_, fun hn hfall => ?_⟩
  · unfold resolve_call_thread_id
    rw [ht]
  · unfold resolve_call_thread_id
    rw [hn, hrc, hc]
    simp
  · unfold resolve_call_thread_id
    rw [hn]
    rcases hfall with h | h
    · rw [h]
      simp
    · rw [h]
      cases useRC <;> simp

/-- Witness for C3: with explicit argument `" T1 "`, a run-context value
`"C1"` under the key, and configured default `"D1"`, the explicit id wins;
without an explicit id the run-context value wins; without either, the
configured default is used. -/
theorem c3_thread_id_precedence_witness :
    resolve_call_thread_id (some " T1 ".toList)
        (some fun k => if k = "codex_thread_id".toList then some "C1".toList else none)
        (some "D1".toList) true "codex_thread_id".toList = some "T1".toList ∧
    resolve_call_thread_id none
        (some fun k => if k = "codex_thread_id".toList then some "C1".toList else none)
        (some "D1".toList) true "codex_thread_id".toList = some "C1".toList ∧
    resolve_call_thread_id none (some fun _ => none)
        (some "D1".toList) true "codex_thread_id".toList = some "D1".toList := by
  refine ⟨?_, ?_, ?_⟩
  · exact (c3_thread_id_precedence (some " T1 ".toList)
      (some fun k => if k = "codex_thread_id".toList then some "C1".toList else none)
      (some "D1".toList) true "codex_thread_id".toList).1 "T1".toList (by decide)
  · exact (c3_thread_id_precedence none
      (some fun k => if k = "codex_thread_id".toList then some "C1".toList else none)
      (some "D1".toList) true "codex_thread_id".toList).2.1 rfl rfl "C1".toList (by decide)
  · exact (c3_thread_id_precedence none (some fun _ => none)
      (some "D1".toList) true "codex_thread_id".toList).2.2 rfl (Or.inr rfl)

/-- C8: in session-persistence mode with a cached thread, the call fails
with a configuration error exactly when a (truthy) explicit thread id is
supplied while the cached thread has a (truthy) id different from it; in
every other case the cached thread is reused. -/
theorem c8_persisted_thread_reuse (threadId : Option Str) (t : SThread) :
    (get_or_create_persisted_thread threadId (some t) = .error () ↔
      (pyTruthy threadId = true ∧ pyTruthy t.id = true ∧ t.id ≠ threadId)) ∧
    (¬ (pyTruthy threadId = true ∧ pyTruthy t.id = true ∧ t.id ≠ threadId) →
      get_or_create_persisted_thread threadId (some t) = .ok .reuseExisting) := by
  have e : get_or_create_persisted_thread threadId (some t) =
      (if pyTruthy threadId = true then
        if pyTruthy t.id = true ∧ t.id ≠ threadId then Except.error ()
        else Except.ok .reuseExisting
      else Except.ok .reuseExisting) := rfl
  rw [e]
  by_cases h1 : pyTruthy threadId = true
  · rw [if_pos h1]
    by_cases h2 : pyTruthy t.id = true ∧ t.id ≠ threadId
    · rw [if_pos h2]
      exact ⟨⟨fun _ => ⟨h1, h2⟩, fun _ => rfl⟩, fun hc => absurd ⟨h1, h2⟩ hc⟩
    · rw [if_neg h2]
      constructor
      · constructor
        · intro h; cases h
        · intro h; exact absurd h.2 h2
      · intro _; rfl
  · rw [if_neg h1]
    constructor
    · constructor
      · intro h; cases h
      · intro h; exact absurd h.1 h1
    · intro _; rfl

/-- Witness for C8: supplying explicit id `"b"` against a cached thread
with id `"a"` raises the configuration error, while the same call without
an explicit id reuses the cached thread. -/
theorem c8_persisted_thread_reuse_witness :
    get_or_create_persisted_thread (some "b".toList) (some ⟨some "a".toList⟩) =
      .error () ∧
    get_or_create_persisted_thread none (some ⟨some "a".toList⟩) =
      .ok .reuseExisting := by
  constructor
  · exact (c8_persisted_thread_reuse (some "b".toList) ⟨some "a".toList⟩).1.mpr
      ⟨by decide, by decide, by decide⟩
  · exact (c8_persisted_thread_reuse none ⟨some "a".toList⟩).2 (by decide)

/-- Helper: the string produced by `_truncate_span_string` never exceeds a
positive budget. -/
theorem truncate_span_string_length_le (s : Str) (mc : Int) (h : 1 ≤ mc) :
    ((truncate_span_string s (some mc)).length : Int) ≤ mc := by
  have e : truncate_span_string s (some mc) =
      (if mc ≤ 0 then []
       else if (s.length : Int) ≤ mc then s
       else if mc - ((truncSuffix s.length).length : Int) ≤ 0 then s.take mc.toNat
       else s.take (mc - ((truncSuffix s.length).length : Int)).toNat ++
         truncSuffix s.length) := rfl
  rw [e]
  rw [if_neg (by omega : ¬ mc ≤ 0)]
  by_cases h1 : (s.length : Int) ≤ mc
  · rw [if_pos h1]
    exact h1
  · rw [if_neg h1]
    by_cases h2 : mc - ((truncSuffix s.length).length : Int) ≤ 0
    · rw [if_pos h2]
      simp only [List.length_take]
      omega
    · rw [if_neg h2]
      simp only [List.length_append, List.length_take]
      omega

/-- C2 (counterexample to the claim as stated): the integer value `100`
with budget `2` passes through `_truncate_span_value` unchanged, and its
serialized field representation has 3 > 2 characters. -/
theorem c2_truncation_counterexample :
    truncate_span_value (.int 100) (some 2) = .int 100 ∧
    json_char_size (truncate_span_value (.int 100) (some 2)) = 3 ∧
    ¬ (json_char_size (truncate_span_value (.int 100) (some 2)) ≤ 2) :=
  ⟨rfl, rfl, by decide⟩

/-- C2 (amended): for every budget `N ≥ 1`, truncating a string value
yields a string of at most `N` characters; a composite (array or object)
value either serializes within `N` characters and passes unchanged or is
replaced by a preview structure whose preview string has at most `N`
characters; `None`, booleans and numbers pass through unchanged (so their
representations may exceed `N`); and span-data budget enforcement with
budget `0` yields an empty mapping. -/
theorem c2_truncation_amended (mc : Int) (h : 1 ≤ mc) :
    (∀ s : Str, ∃ t : Str,
      truncate_span_value (.str s) (some mc) = .str t ∧ (t.length : Int) ≤ mc) ∧
    (∀ n : Int, truncate_span_value (.int n) (some mc) = .int n) ∧
    (∀ b : Bool, truncate_span_value (.bool b) (some mc) = .bool b) ∧
    truncate_span_value .null (some mc) = .null ∧
    (∀ items : List JsonValue,
      ((json_char_size (.arr items) : Int) ≤ mc ∧
        truncate_span_value (.arr items) (some mc) = .arr items) ∨
      ∃ p : Str,
        truncate_span_value (.arr items) (some mc) =
          .obj [("preview".toList, .str p), ("truncated".toList, .bool true),
                ("original_length".toList, .int (json_char_size (.arr items)))] ∧
        (p.length : Int) ≤ mc) ∧
    (∀ fields : List (Str × JsonValue),
      ((json_char_size (.obj fields) : Int) ≤ mc ∧
        truncate_span_value (.obj fields) (some mc) = .obj fields) ∨
      ∃ p : Str,
        truncate_span_value (.obj fields) (some mc) =
          .obj [("preview".toList, .str p), ("truncated".toList, .bool true),
                ("original_length".toList, .int (json_char_size (.obj fields)))] ∧
        (p.length : Int) ≤ mc) ∧
    (∀ data : List (Str × JsonValue), enforce_span_data_budget data (some 0) = []) := by
  refine ⟨fun s => ?_, fun n => rfl, fun b => rfl, rfl, fun items => ?_, fun fields => ?_,
    fun data => rfl⟩
  · exact ⟨truncate_span_string s (some mc), rfl, truncate_span_string_length_le s mc h⟩
  · have e : truncate_span_value (.arr items) (some mc) =
        (if ((jsonDumps (.arr items)).length : Int) ≤ mc then .arr items
         else .obj [("preview".toList,
                      .str (truncate_span_string (jsonDumps (.arr items)) (some mc))),
                    ("truncated".toList, .bool true),
                    ("original_length".toList,
                      .int ((jsonDumps (.arr items)).length : Int))]) := rfl
    rw [e]
    by_cases h1 : ((jsonDumps (.arr items)).length : Int) ≤ mc
    · exact Or.inl ⟨h1, by rw [if_pos h1]⟩
    · refine Or.inr ⟨truncate_span_string (jsonDumps (.arr items)) (some mc), ?_,
        truncate_span_string_length_le _ mc h⟩
      rw [if_neg h1]
      rfl
  · have e : truncate_span_value (.obj fields) (some mc) =
        (if ((jsonDumps (.obj fields)).length : Int) ≤ mc then .obj fields
         else .obj [("preview".toList,
                      .str (truncate_span_string (jsonDumps (.obj fields)) (some mc))),
                    ("truncated".toList, .bool true),
                    ("original_length".toList,
                      .int ((jsonDumps (.obj fields)).length : Int))]) := rfl
    rw [e]
    by_cases h1 : ((jsonDumps (.obj fields)).length : Int) ≤ mc
    · exact Or.inl ⟨h1, by rw [if_pos h1]⟩
    · refine Or.inr ⟨truncate_span_string (jsonDumps (.obj fields)) (some mc), ?_,
        truncate_span_string_length_le _ mc h⟩
      rw [if_neg h1]
      rfl

/-- Witness for C2 (amended), at budget `5`: a long string is truncated to
at most 5 characters, the integer `7` passes through, and budget `0`
empties a concrete mapping. -/
theorem c2_truncation_amended_witness :
    (∃ t : Str, truncate_span_value (.str "hello world".toList) (some 5) = .str t ∧
      (t.length : Int) ≤ 5) ∧
    truncate_span_value (.int 7) (some 5) = .int 7 ∧
    enforce_span_data_budget [("output".toList, .str "x".toList)] (some 0) = [] := by
  have h := c2_truncation_amended 5 (by decide)
  exact ⟨h.1 "hello world".toList, h.2.1 7,
    h.2.2.2.2.2.2 [("output".toList, .str "x".toList)]⟩

/-- Field lookup on a JSON object value. -/
def objLookup (v : JsonValue) (k : Str) : Option JsonValue :=
  match v with
  | .obj fields => List.lookup k fields
  | _ => none

/-- C5: for every output-schema descriptor accepted by
`_validate_descriptor`, the JSON schema produced by
`_build_codex_output_schema` has `type: "object"`,
`additionalProperties: false`, and a `required` list containing only
property names declared in the descriptor's `properties`. -/
theorem c5_output_schema_strict (d : SchemaDescriptor)
    (h : validate_descriptor d = true) :
    objLookup (build_codex_output_schema d) "type".toList =
      some (.str "object".toList) ∧
    objLookup (build_codex_output_schema d) "additionalProperties".toList =
      some (.bool false) ∧
    objLookup (build_codex_output_schema d) "required".toList =
      some (.arr ((d.required.getD []).map JsonValue.str)) ∧
    ∀ name ∈ d.required.getD [],
      name ∈ d.properties.map PropertyDescriptor.name := by
  obtain ⟨title, description, props, req⟩ := d
  refine ⟨?_, ?_, ?_, ?_⟩
  · cases title <;> cases description <;>
      simp only [build_codex_output_schema, objLookup] <;>
      first
        | rfl
        | (split_ifs <;> rfl)
  · cases title <;> cases description <;>
      simp only [build_codex_output_schema, objLookup] <;>
      first
        | rfl
        | (split_ifs <;> rfl)
  · cases title <;> cases description <;>
      simp only [build_codex_output_schema, objLookup] <;>
      first
        | rfl
        | (split_ifs <;> rfl)
  · simp only [validate_descriptor, Bool.and_eq_true] at h
    cases req with
    | none => intro name hn; simp at hn
    | some req =>
      intro name hn
      have hall := h.2
      simp only [List.all_eq_true] at hall
      have := hall name hn
      simpa using this

/-- Helper: a non-failure event never makes the loop raise. -/
theorem consumeStep_snd_eq_none (st : ConsumeState) (e : ThreadEvent)
    (h : isFailureEvent e = false) : (consumeStep st e).2 = none := by
  cases e <;> simp [isFailureEvent] at h ⊢ <;> simp [consumeStep] <;> split <;> rfl

/-- Helper: one loop step updates the running final response to the text
of a completed agent message, and leaves it unchanged otherwise. -/
theorem consumeStep_finalResponse (st : ConsumeState) (e : ThreadEvent) :
    ((consumeStep st e).1).finalResponse =
      (agentMessageTextOf e).getD st.finalResponse := by
  cases e with
  | itemStarted item =>
    simp only [consumeStep, agentMessageTextOf, Option.getD]
    split <;> rfl
  | itemCompleted item =>
    cases item <;> simp only [consumeStep, agentMessageTextOf, Option.getD] <;>
      split <;> first
        | rfl
        | (split <;> rfl)
  | _ => rfl

/-- Helper: chaining `Option.orElse` under `Option.getD`. -/
theorem getD_orElse {α : Type} (a b : Option α) (d : α) :
    (a.orElse fun _ => b).getD d = a.getD (b.getD d) := by
  cases a <;> rfl

/-- Helper: over a failure-free event sequence the loop never raises, and
its final response is the last agent-message text, defaulting to the
initial accumulator. -/
theorem consumeLoop_response (events : List ThreadEvent) :
    ∀ st : ConsumeState, noFailureEvents events = true →
      (consumeLoop events st).2 = none ∧
      (consumeLoop events st).1.finalResponse =
        (lastAgentMessageText events).getD st.finalResponse := by
  induction events with
  | nil => exact fun st _ => ⟨rfl, rfl⟩
  | cons e rest ih =>
    intro st h
    simp only [noFailureEvents, List.all_cons, Bool.and_eq_true, Bool.not_eq_true'] at h
    obtain ⟨he, hrest⟩ := h
    have hrest2 : noFailureEvents rest = true := by
      simpa [noFailureEvents] using hrest
    have h2 := consumeStep_snd_eq_none st e he
    have h3 := consumeStep_finalResponse st e
    rcases hstep : consumeStep st e with ⟨st1, msg⟩
    rw [hstep] at h2 h3
    simp only at h2 h3
    subst h2
    have hcons : consumeLoop (e :: rest) st = consumeLoop rest st1 := by
      simp [consumeLoop, hstep]
    have hlast : lastAgentMessageText (e :: rest) =
        (lastAgentMessageText rest).orElse (fun _ => agentMessageTextOf e) := rfl
    obtain ⟨ih1, ih2⟩ := ih st1 hrest2
    rw [hcons, hlast, getD_orElse]
    exact ⟨ih1, by rw [ih2, h3]⟩

/-- C1 (counterexample to the claim as stated): when the last completed
agent-message item carries the empty text, the aggregated response is the
synthesized default, not that (empty) text. -/
theorem c1_response_counterexample :
    lastAgentMessageText
        [.itemCompleted (.agentMessage "a".toList []), .turnCompleted ⟨1, 0, 1⟩] =
      some [] ∧
    (consume_events
        [.itemCompleted (.agentMessage "a".toList []), .turnCompleted ⟨1, 0, 1⟩]
        none none false).toOption.map ConsumeOk.response =
      some "Codex task completed with no inputs.".toList ∧
    "Codex task completed with no inputs.".toList ≠ ([] : Str) :=
  ⟨rfl, rfl, by decide⟩

/-- C1 (amended): for every failure-free event sequence (in particular one
ending in `turn.completed`), the aggregated final response equals the text
of the last completed agent-message item when that text is non-empty;
otherwise — no completed agent-message item, or its last text empty — it
is the synthesized default string. -/
theorem c1_response_aggregation_amended (events : List ThreadEvent)
    (threadIdAtStart holderInit : Option Str) (argsHasInputs : Bool)
    (h : noFailureEvents events = true) :
    ∃ r : ConsumeOk,
      consume_events events threadIdAtStart holderInit argsHasInputs = .ok r ∧
      r.response =
        (match lastAgentMessageText events with
         | some t => if t = [] then build_default_response argsHasInputs else t
         | none => build_default_response argsHasInputs) := by
  obtain ⟨h2, hfr⟩ := consumeLoop_response events (initConsumeState threadIdAtStart holderInit) h
  unfold consume_events
  rcases hloop : consumeLoop events (initConsumeState threadIdAtStart holderInit) with ⟨stf, msg⟩
  rw [hloop] at h2 hfr
  simp only at h2 hfr
  subst h2
  have hfin : (finalizeSpans stf).finalResponse = stf.finalResponse := rfl
  refine ⟨_, rfl, ?_⟩
  simp only [hfin, hfr]
  cases hlast : lastAgentMessageText events with
  | none => rfl
  | some t =>
    by_cases ht : t = []
    · simp [Option.getD, ht]
    · simp [Option.getD, ht]

/-- Witness for C1 (amended): a concrete failure-free sequence ending in
`turn.completed` whose last agent message says `"ok"` aggregates to
`"ok"`. -/
theorem c1_response_aggregation_amended_witness :
    ∃ r : ConsumeOk,
      consume_events
          [.threadStarted "T".toList,
           .itemCompleted (.agentMessage "a".toList "ok".toList),
           .turnCompleted ⟨1, 0, 1⟩]
          none none true = .ok r ∧
      r.response = "ok".toList :=
  c1_response_aggregation_amended
    [.threadStarted "T".toList,
     .itemCompleted (.agentMessage "a".toList "ok".toList),
     .turnCompleted ⟨1, 0, 1⟩]
    none none true (by decide)

/-- Witness for C5: a concrete two-property descriptor with one required
property passes validation and yields the strict object schema. -/
theorem c5_output_schema_strict_witness :
    objLookup
        (build_codex_output_schema
          ⟨some "Report".toList, none,
           [⟨"tags".toList, none,
             .obj [("type".toList, .str "array".toList),
                   ("items".toList, .obj [("type".toList, .str "string".toList)])]⟩,
            ⟨"summary".toList, none,
             .obj [("type".toList, .str "string".toList)]⟩],
           some ["tags".toList]⟩)
        "additionalProperties".toList = some (.bool false) := by
  exact (c5_output_schema_strict
    ⟨some "Report".toList, none,
     [⟨"tags".toList, none,
       .obj [("type".toList, .str "array".toList),
             ("items".toList, .obj [("type".toList, .str "string".toList)])]⟩,
      ⟨"summary".toList, none,
       .obj [("type".toList, .str "string".toList)]⟩],
     some ["tags".toList]⟩ (by decide)).2.1

/-- Helper: a successful lookup value occurs among the mapping's values. -/
theorem lookup_mem_snd (k : Str) (m : List (Str × Nat)) (v : Nat)
    (h : List.lookup k m = some v) : v ∈ m.map Prod.snd := by
  induction m with
  | nil => simp [List.lookup] at h
  | cons p rest ih =>
    simp only [List.lookup] at h
    cases hk : (k == p.1) with
    | true => rw [hk] at h; simp at h; simp [← h]
    | false => rw [hk] at h; simp only at h; simp [ih h]

/-- Helper: inserting an absent key appends it (Python `dict` insertion
order). -/
theorem setKey_of_lookup_none (m : List (Str × Nat)) (k : Str) (v : Nat)
    (h : List.lookup k m = none) : setKey m k v = m ++ [(k, v)] := by
  induction m with
  | nil => rfl
  | cons p rest ih =>
    simp only [List.lookup] at h
    cases hk : (k == p.1) with
    | true => rw [hk] at h; simp at h
    | false =>
      rw [hk] at h
      simp only at h
      have hne : p.1 ≠ k := fun he => by simp [he] at hk
      obtain ⟨p1, p2⟩ := p
      simp only [setKey, if_neg hne]
      rw [ih h]
      rfl

/-- Helper: removing a key yields a sublist of the mapping. -/
theorem eraseKey_sublist (m : List (Str × Nat)) (k : Str) :
    List.Sublist (eraseKey m k) m := by
  induction m with
  | nil => exact List.Sublist.refl _
  | cons p rest ih =>
    obtain ⟨p1, p2⟩ := p
    simp only [eraseKey]
    by_cases hk : p1 = k
    · rw [if_pos hk]
      exact List.sublist_cons_self _ _
    · rw [if_neg hk]
      exact ih.cons₂ _

/-- Helper: after removing the pair a lookup found, its value is gone from
a duplicate-free value list. -/
theorem lookup_eraseKey_not_mem (m : List (Str × Nat)) (k : Str) (tok : Nat)
    (hd : (m.map Prod.snd).Nodup) (h : List.lookup k m = some tok) :
    tok ∉ (eraseKey m k).map Prod.snd := by
  induction m with
  | nil => simp [List.lookup] at h
  | cons p rest ih =>
    obtain ⟨p1, p2⟩ := p
    simp only [List.map_cons, List.nodup_cons] at hd
    simp only [List.lookup] at h
    cases hk : (k == p1) with
    | true =>
      rw [hk] at h
      simp only [Option.some.injEq] at h
      have he : p1 = k := by
        have := (beq_iff_eq (a := k) (b := p1)).mp hk
        exact this.symm
      simp only [eraseKey, if_pos he]
      rw [← h]
      exact hd.1
    | false =>
      rw [hk] at h
      simp only at h
      have hne : p1 ≠ k := fun he => by simp [he] at hk
      simp only [eraseKey, if_neg hne, List.map_cons, List.mem_cons]
      push_neg
      constructor
      · intro he
        exact hd.1 (by rw [he] at h; exact lookup_mem_snd k rest p2 h)
      · exact ih hd.2 h

/-- Helper: pairs other than the removed one survive `eraseKey`. -/
theorem mem_eraseKey_of_snd_ne (m : List (Str × Nat)) (k : Str) (tok : Nat)
    (p : Str × Nat) (hm : p ∈ m) (h : List.lookup k m = some tok)
    (hne : p.2 ≠ tok) : p ∈ eraseKey m k := by
  induction m with
  | nil => simp at hm
  | cons q rest ih =>
    obtain ⟨q1, q2⟩ := q
    simp only [List.lookup] at h
    cases hk : (k == q1) with
    | true =>
      rw [hk] at h
      simp only [Option.some.injEq] at h
      have he : q1 = k := ((beq_iff_eq (a := k) (b := q1)).mp hk).symm
      simp only [eraseKey, if_pos he]
      rcases List.mem_cons.mp hm with hp | hp
      · exact absurd (by rw [hp, h]) hne
      · exact hp
    | false =>
      rw [hk] at h
      simp only at h
      have hqne : q1 ≠ k := fun he => by simp [he] at hk
      simp only [eraseKey, if_neg hqne, List.mem_cons]
      rcases List.mem_cons.mp hm with hp | hp
      · exact Or.inl hp
      · exact Or.inr (ih hp h)

/-- Helper: appending an action increments its own count by one. -/
theorem count_snoc_self (l : List SpanAction) (a : SpanAction) :
    (l ++ [a]).count a = l.count a + 1 := by simp

/-- Helper: appending a different action leaves a count unchanged. -/
theorem count_snoc_ne (l : List SpanAction) (a b : SpanAction) (h : b ≠ a) :
    (l ++ [b]).count a = l.count a := by
  rw [List.count_append, List.count_singleton']
  simp [h]

/-- The invariant the event loop maintains on its span bookkeeping: every
tracked span was opened exactly once and not yet finished, tokens are
fresh and duplicate-free, and every other opened span was finished exactly
once. -/
def SpanInv (st : ConsumeState) : Prop :=
  (∀ p ∈ st.activeSpans, p.2 < st.nextTok) ∧
  (st.activeSpans.map Prod.snd).Nodup ∧
  (∀ p ∈ st.activeSpans,
    st.trace.count (.openSpan p.2) = 1 ∧ st.trace.count (.finishSpan p.2) = 0) ∧
  (∀ tok : Nat, SpanAction.openSpan tok ∈ st.trace →
    tok ∈ st.activeSpans.map Prod.snd ∨ st.trace.count (.finishSpan tok) = 1) ∧
  (∀ tok : Nat,
    (SpanAction.openSpan tok ∈ st.trace ∨ SpanAction.finishSpan tok ∈ st.trace) →
    tok < st.nextTok)

/-- Helper: the invariant only depends on the span-related fields. -/
theorem spanInv_of_fields_eq (st st2 : ConsumeState)
    (ha : st2.activeSpans = st.activeSpans) (ht : st2.trace = st.trace)
    (hn : st2.nextTok = st.nextTok) (h : SpanInv st) : SpanInv st2 := by
  unfold SpanInv at h ⊢
  rw [ha, ht, hn]
  exact h

/-- Helper: the invariant holds at the start of the loop. -/
theorem spanInv_init (threadIdAtStart holderInit : Option Str) :
    SpanInv (initConsumeState threadIdAtStart holderInit) := by
  refine ⟨?_, ?_, ?_, ?_, ?_⟩ <;> simp [initConsumeState]

/-- Helper: finishing the span a completion looked up preserves the
invariant. -/
theorem spanInv_finish (st : ConsumeState) (key : Str) (tok : Nat)
    (hinv : SpanInv st) (hlk : List.lookup key st.activeSpans = some tok) :
    SpanInv { st with
        trace := st.trace ++ [.finishSpan tok]
        activeSpans := eraseKey st.activeSpans key } := by
  obtain ⟨h1, h2, h3, h4, h5⟩ := hinv
  have htokmem : tok ∈ st.activeSpans.map Prod.snd := lookup_mem_snd key _ tok hlk
  obtain ⟨p0, hp0m, hp0v⟩ := List.mem_map.mp htokmem
  have htok0 : st.trace.count (.finishSpan tok) = 0 := by
    have := (h3 p0 hp0m).2
    rw [hp0v] at this
    exact this
  have hnotin : tok ∉ (eraseKey st.activeSpans key).map Prod.snd :=
    lookup_eraseKey_not_mem _ _ _ h2 hlk
  refine ⟨?_, ?_, ?_, ?_, ?_⟩
  · intro p hp
    exact h1 p ((eraseKey_sublist st.activeSpans key).mem hp)
  · exact h2.sublist ((eraseKey_sublist st.activeSpans key).map Prod.snd)
  · intro p hp
    have hpm : p ∈ st.activeSpans := (eraseKey_sublist st.activeSpans key).mem hp
    have hpne : p.2 ≠ tok := fun he => hnotin (he ▸ List.mem_map_of_mem Prod.snd hp)
    obtain ⟨ho, hf⟩ := h3 p hpm
    constructor
    · rw [count_snoc_ne _ _ _ (by simp)]
      exact ho
    · rw [count_snoc_ne _ _ _ (fun he => hpne (SpanAction.finishSpan.inj he).symm)]
      exact hf
  · intro tok2 hmem
    have hmem2 : SpanAction.openSpan tok2 ∈ st.trace := by
      rcases List.mem_append.mp hmem with hh | hh
      · exact hh
      · simp at hh
    rcases h4 tok2 hmem2 with hact | hfin
    · by_cases htt : tok2 = tok
      · right
        rw [htt, count_snoc_self, htok0]
      · left
        obtain ⟨p, hpm, hpv⟩ := List.mem_map.mp hact
        have : p ∈ eraseKey st.activeSpans key :=
          mem_eraseKey_of_snd_ne _ _ _ p hpm hlk (by rw [hpv]; exact htt)
        exact hpv ▸ List.mem_map_of_mem Prod.snd this
    · right
      have htne : tok2 ≠ tok := fun he => by rw [he, htok0] at hfin; cases hfin
      rw [count_snoc_ne _ _ _ (fun he => htne (SpanAction.finishSpan.inj he).symm)]
      exact hfin
  · intro tok2 hmem
    have hcase : (SpanAction.openSpan tok2 ∈ st.trace ∨
        SpanAction.finishSpan tok2 ∈ st.trace) ∨ tok2 = tok := by
      rcases hmem with hh | hh
      · rcases List.mem_append.mp hh with hh2 | hh2
        · exact Or.inl (Or.inl hh2)
        · simp at hh2
      · rcases List.mem_append.mp hh with hh2 | hh2
        · exact Or.inl (Or.inr hh2)
        · simp at hh2
          exact Or.inr hh2
    rcases hcase with hh | hh
    · exact h5 tok2 hh
    · rw [hh, ← hp0v]
      exact h1 p0 hp0m

/-- Helper: opening a span for a fresh item id preserves the invariant. -/
theorem spanInv_open (st : ConsumeState) (key : Str)
    (hinv : SpanInv st) (hlk : List.lookup key st.activeSpans = none) :
    SpanInv { st with
        activeSpans := setKey st.activeSpans key st.nextTok
        nextTok := st.nextTok + 1
        trace := st.trace ++ [.openSpan st.nextTok] } := by
  obtain ⟨h1, h2, h3, h4, h5⟩ := hinv
  have hset := setKey_of_lookup_none st.activeSpans key st.nextTok hlk
  have hnotopen : SpanAction.openSpan st.nextTok ∉ st.trace := fun hmem =>
    absurd (h5 st.nextTok (Or.inl hmem)) (by omega)
  have hnotfin : SpanAction.finishSpan st.nextTok ∉ st.trace := fun hmem =>
    absurd (h5 st.nextTok (Or.inr hmem)) (by omega)
  refine ⟨?_, ?_, ?_, ?_, ?_⟩
  · intro p hp
    rw [hset] at hp
    rcases List.mem_append.mp hp with hh | hh
    · have := h1 p hh
      show p.2 < st.nextTok + 1
      omega
    · simp at hh
      subst hh
      show st.nextTok < st.nextTok + 1
      omega
  · rw [hset, List.map_append]
    simp only [List.map_cons, List.map_nil]
    rw [List.nodup_append]
    refine ⟨h2, List.nodup_singleton _, ?_⟩
    intro v hv hv2
    simp at hv2
    subst hv2
    obtain ⟨p, hpm, hpv⟩ := List.mem_map.mp hv
    exact absurd (h1 p hpm) (by omega)
  · intro p hp
    rw [hset] at hp
    rcases List.mem_append.mp hp with hh | hh
    · obtain ⟨ho, hf⟩ := h3 p hh
      have hpne : p.2 ≠ st.nextTok := by
        have := h1 p hh
        omega
      constructor
      · rw [count_snoc_ne _ _ _ (fun he => hpne (SpanAction.openSpan.inj he).symm)]
        exact ho
      · rw [count_snoc_ne _ _ _ (by simp)]
        exact hf
    · simp at hh
      subst hh
      constructor
      · show (st.trace ++ [SpanAction.openSpan st.nextTok]).count
            (SpanAction.openSpan st.nextTok) = 1
        rw [count_snoc_self, List.count_eq_zero.mpr hnotopen]
      · show (st.trace ++ [SpanAction.openSpan st.nextTok]).count
            (SpanAction.finishSpan st.nextTok) = 0
        rw [count_snoc_ne _ _ _ (by simp), List.count_eq_zero.mpr hnotfin]
  · intro tok2 hmem
    rcases List.mem_append.mp hmem with hh | hh
    · rcases h4 tok2 hh with hact | hfin
      · left
        rw [hset, List.map_append]
        exact List.mem_append.mpr (Or.inl hact)
      · right
        have htne : tok2 ≠ st.nextTok := fun he => hnotopen (he ▸ hh)
        rw [count_snoc_ne _ _ _ (by simp [htne.symm])]
        exact hfin
    · simp at hh
      left
      rw [hh, hset, List.map_append]
      simp
  · intro tok2 hmem
    have : tok2 < st.nextTok ∨ tok2 = st.nextTok := by
      rcases hmem with hh | hh
      · rcases List.mem_append.mp hh with hh2 | hh2
        · exact Or.inl (h5 tok2 (Or.inl hh2))
        · simp at hh2
          exact Or.inr hh2
      · rcases List.mem_append.mp hh with hh2 | hh2
        · exact Or.inl (h5 tok2 (Or.inr hh2))
        · simp at hh2
    show tok2 < st.nextTok + 1
    omega

/-- Helper: one loop step preserves the span invariant, provided any span
it opens is for an item id that is not currently tracked. -/
theorem consumeStep_spanInv (st : ConsumeState) (e : ThreadEvent)
    (hinv : SpanInv st)
    (hfresh : ∀ item, e = .itemStarted item → opensSpan item = true →
      List.lookup item.itemId st.activeSpans = none) :
    SpanInv (consumeStep st e).1 := by
  cases e with
  | itemStarted item =>
    by_cases ho : opensSpan item = true
    · have estep : (consumeStep st (.itemStarted item)).1 =
          { st with
              activeSpans := setKey st.activeSpans item.itemId st.nextTok
              nextTok := st.nextTok + 1
              trace := st.trace ++ [.openSpan st.nextTok] } := by
        simp [consumeStep, ho]
      rw [estep]
      exact spanInv_open st item.itemId hinv (hfresh item rfl ho)
    · have estep : (consumeStep st (.itemStarted item)).1 = st := by
        simp [consumeStep, ho]
      rw [estep]
      exact hinv
  | itemCompleted item =>
    have hst1 : SpanInv
        (if item.itemId ≠ [] then
          match List.lookup item.itemId st.activeSpans with
          | some tok =>
            { st with
                trace := st.trace ++ [.finishSpan tok]
                activeSpans := eraseKey st.activeSpans item.itemId }
          | none => st
        else st) := by
      by_cases hid : item.itemId ≠ []
      · rw [if_pos hid]
        cases hlk : List.lookup item.itemId st.activeSpans with
        | some tok => exact spanInv_finish st item.itemId tok hinv hlk
        | none => exact hinv
      · rw [if_neg hid]
        exact hinv
    cases item with
    | agentMessage id text => exact spanInv_of_fields_eq _ _ rfl rfl rfl hst1
    | commandExecution id command output exitCode status =>
      exact spanInv_of_fields_eq _ _ rfl rfl rfl hst1
    | mcpToolCall id server tool status error =>
      exact spanInv_of_fields_eq _ _ rfl rfl rfl hst1
    | reasoning id text => exact spanInv_of_fields_eq _ _ rfl rfl rfl hst1
    | unknownItem id => exact spanInv_of_fields_eq _ _ rfl rfl rfl hst1
  | itemUpdated item => exact hinv
  | turnCompleted usage => exact spanInv_of_fields_eq _ _ rfl rfl rfl hinv
  | threadStarted threadId => exact spanInv_of_fields_eq _ _ rfl rfl rfl hinv
  | turnFailed msg => exact hinv
  | threadError msg => exact hinv
  | turnStarted => exact hinv
  | unknownEvent => exact hinv

/-- Whether one event avoids opening a span for an item id that is already
tracked. -/
def startIsFresh (e : ThreadEvent) (active : List (Str × Nat)) : Bool :=
  match e with
  | .itemStarted item =>
    !(opensSpan item && (List.lookup item.itemId active).isSome)
  | _ => true

/-- Whether every span-opening `item.started` event of the sequence (as
processed by the loop from the given state) concerns an item id with no
currently tracked span.  Duplicate `item.started` events for an already
open id are exactly what this excludes. -/
def spanStartFresh : List ThreadEvent → ConsumeState → Bool
  | [], _ => true
  | e :: rest, st =>
    startIsFresh e st.activeSpans &&
    (match consumeStep st e with
     | (st1, none) => spanStartFresh rest st1
     | (_, some _) => true)

/-- Helper: the loop preserves the span invariant over a
fresh-starts-only event sequence. -/
theorem consumeLoop_spanInv (events : List ThreadEvent) :
    ∀ st : ConsumeState, SpanInv st → spanStartFresh events st = true →
      SpanInv (consumeLoop events st).1 := by
  induction events with
  | nil => exact fun st hinv _ => hinv
  | cons e rest ih =>
    intro st hinv h
    rw [spanStartFresh] at h
    rw [Bool.and_eq_true] at h
    obtain ⟨hhead, htail⟩ := h
    have hfresh : ∀ item, e = .itemStarted item → opensSpan item = true →
        List.lookup item.itemId st.activeSpans = none := by
      intro item he hop
      subst he
      cases hlkv : List.lookup item.itemId st.activeSpans with
      | none => rfl
      | some v =>
        simp only [startIsFresh, hlkv, hop] at hhead
        simp at hhead
    have hst1 := consumeStep_spanInv st e hinv hfresh
    rcases hstep : consumeStep st e with ⟨st1, msg⟩
    rw [hstep] at hst1 htail
    simp only at hst1
    cases msg with
    | none =>
      have hcons : consumeLoop (e :: rest) st = consumeLoop rest st1 := by
        simp [consumeLoop, hstep]
      rw [hcons]
      exact ih st1 hst1 htail
    | some m =>
      have hcons : consumeLoop (e :: rest) st = (st1, some m) := by
        simp [consumeLoop, hstep]
      rw [hcons]
      exact hst1

/-- C4 (counterexample to the claim as stated): a second `item.started`
event for an already open item id replaces the tracked span, and the first
span (token 0) is opened but never finished — neither by the completion
nor by the end-of-turn cleanup. -/
theorem c4_span_counterexample :
    (spanTrace
        [.itemStarted (.commandExecution "x".toList "ls".toList none none
          "in_progress".toList),
         .itemStarted (.commandExecution "x".toList "ls".toList none none
          "in_progress".toList),
         .itemCompleted (.commandExecution "x".toList "ls".toList none (some 0)
          "completed".toList),
         .turnCompleted ⟨1, 0, 1⟩]).count (SpanAction.openSpan 0) = 1 ∧
    (spanTrace
        [.itemStarted (.commandExecution "x".toList "ls".toList none none
          "in_progress".toList),
         .itemStarted (.commandExecution "x".toList "ls".toList none none
          "in_progress".toList),
         .itemCompleted (.commandExecution "x".toList "ls".toList none (some 0)
          "completed".toList),
         .turnCompleted ⟨1, 0, 1⟩]).count (SpanAction.finishSpan 0) = 0 := by
  constructor <;> rfl

/-- C4 (amended): provided no `item.started` event opens a span for an item
id that is already open (the loop otherwise silently replaces — and leaks —
the tracked span), every span opened during the turn is finished exactly
once, by its item's completion or by the end-of-turn cleanup, whether the
loop ends normally or by exception. -/
theorem c4_spans_closed_amended (events : List ThreadEvent)
    (h : spanStartFresh events (initConsumeState none none) = true) :
    ∀ tok : Nat, SpanAction.openSpan tok ∈ spanTrace events →
      (spanTrace events).count (SpanAction.finishSpan tok) = 1 := by
  intro tok hmem
  have hinv := consumeLoop_spanInv events (initConsumeState none none)
    (spanInv_init none none) h
  obtain ⟨h1, h2, h3, h4, h5⟩ := hinv
  set stf := (consumeLoop events (initConsumeState none none)).1 with hstf
  have htr : spanTrace events =
      stf.trace ++ stf.activeSpans.map (fun kv => SpanAction.finishSpan kv.2) := rfl
  rw [htr] at hmem ⊢
  have hmem2 : SpanAction.openSpan tok ∈ stf.trace := by
    rcases List.mem_append.mp hmem with hh | hh
    · exact hh
    · obtain ⟨p, _, hp⟩ := List.mem_map.mp hh
      cases hp
  have hmapcount : (stf.activeSpans.map (fun kv => SpanAction.finishSpan kv.2)).count
      (SpanAction.finishSpan tok) = (stf.activeSpans.map Prod.snd).count tok := by
    have : stf.activeSpans.map (fun kv => SpanAction.finishSpan kv.2) =
        (stf.activeSpans.map Prod.snd).map SpanAction.finishSpan := by
      rw [List.map_map]
      rfl
    rw [this]
    exact List.count_map_of_injective _ SpanAction.finishSpan
      (fun a b hab => by cases hab; rfl) tok
  rw [List.count_append, hmapcount]
  rcases h4 tok hmem2 with hact | hfin
  · obtain ⟨p, hpm, hpv⟩ := List.mem_map.mp hact
    have hz : stf.trace.count (SpanAction.finishSpan tok) = 0 := by
      have := (h3 p hpm).2
      rw [hpv] at this
      exact this
    rw [hz, List.count_eq_one_of_mem h2 hact]
  · have hnot : tok ∉ stf.activeSpans.map Prod.snd := by
      intro hmem3
      obtain ⟨p, hpm, hpv⟩ := List.mem_map.mp hmem3
      have := (h3 p hpm).2
      rw [hpv, hfin] at this
      cases this
    rw [hfin, List.count_eq_zero.mpr hnot]

/-- Witness for C4 (amended): a well-formed start/complete lifecycle for
one command item opens span 0 and finishes it exactly once. -/
theorem c4_spans_closed_amended_witness :
    (spanTrace
        [.itemStarted (.commandExecution "x".toList "ls".toList none none
          "in_progress".toList),
         .itemCompleted (.commandExecution "x".toList "ls".toList none (some 0)
          "completed".toList),
         .turnCompleted ⟨1, 0, 1⟩]).count (SpanAction.finishSpan 0) = 1 :=
  c4_spans_closed_amended
    [.itemStarted (.commandExecution "x".toList "ls".toList none none
      "in_progress".toList),
     .itemCompleted (.commandExecution "x".toList "ls".toList none (some 0)
      "completed".toList),
     .turnCompleted ⟨1, 0, 1⟩]
    (by decide) 0 (by decide)


/-- Helper: hex digits decode their value. -/
theorem hexVal_hexDigitChar : ∀ k, k < 16 → hexVal (hexDigitChar k) = some k := by decide

/-- Helper: decimal digits decode their value. -/
theorem digitVal_digitChar : ∀ k, k < 10 → digitVal (digitChar k) = some k := by decide

/-- Helper: every character is a Unicode scalar value below `0x110000` and
outside the surrogate range. -/
theorem char_toNat_facts (c : Char) :
    c.toNat < 0x110000 ∧ (c.toNat < 0xd800 ∨ 0xdfff < c.toNat) := by
  have h := c.valid
  have e : c.toNat = c.val.toNat := rfl
  rw [e]
  rcases h with h | h
  · exact ⟨by omega, Or.inl h⟩
  · exact ⟨h.2, Or.inr h.1⟩

/-- Helper: four emitted hex digits parse back to the encoded number. -/
theorem parseHex4_hex4 (n : Nat) (h : n < 0x10000) (rest : Str) :
    parseHex4 (hex4 n ++ rest) = some (n, rest) := by
  have e : hex4 n ++ rest =
      hexDigitChar (n / 4096 % 16) :: hexDigitChar (n / 256 % 16) ::
      hexDigitChar (n / 16 % 16) :: hexDigitChar (n % 16) :: rest := by
    simp [hex4]
  rw [e]
  simp only [parseHex4]
  rw [hexVal_hexDigitChar _ (Nat.mod_lt _ (by omega)),
    hexVal_hexDigitChar _ (Nat.mod_lt _ (by omega)),
    hexVal_hexDigitChar _ (Nat.mod_lt _ (by omega)),
    hexVal_hexDigitChar _ (Nat.mod_lt _ (by omega))]
  simp only [Option.some.injEq, Prod.mk.injEq]
  refine ⟨by omega, trivial⟩

/-- Helper: every character escape is non-empty. -/
theorem escapeChar_length_pos (c : Char) : 1 ≤ (escapeChar c).length := by
  unfold escapeChar
  by_cases h1 : c = '"'
  · rw [if_pos h1]; simp
  rw [if_neg h1]
  by_cases h2 : c = '\\'
  · rw [if_pos h2]; simp
  rw [if_neg h2]
  by_cases h3 : c = '\x08'
  · rw [if_pos h3]; simp
  rw [if_neg h3]
  by_cases h4 : c = '\x0c'
  · rw [if_pos h4]; simp
  rw [if_neg h4]
  by_cases h5 : c = '\n'
  · rw [if_pos h5]; simp
  rw [if_neg h5]
  by_cases h6 : c = '\r'
  · rw [if_pos h6]; simp
  rw [if_neg h6]
  by_cases h7 : c = '\t'
  · rw [if_pos h7]; simp
  rw [if_neg h7]
  by_cases h8 : c.toNat < 0x20
  · rw [if_pos h8]; simp [hex4]
  rw [if_neg h8]
  by_cases h9 : c.toNat ≤ 0x7e
  · rw [if_pos h9]; simp
  rw [if_neg h9]
  by_cases h10 : c.toNat < 0x10000
  · rw [if_pos h10]; simp [hex4]
  rw [if_neg h10]
  simp [hex4]

/-- Helper: the escaped body is at least as long as the source string. -/
theorem escapeStr_length_ge (s : Str) : s.length ≤ (escapeStr s).length := by
  induction s with
  | nil => simp [escapeStr]
  | cons c s ih =>
    have e : escapeStr (c :: s) = escapeChar c ++ escapeStr s := by simp [escapeStr]
    rw [e, List.length_append]
    have := escapeChar_length_pos c
    simp only [List.length_cons]
    omega

/-- Helper: parser step for an escaped quote. -/
theorem parseAux_esc_quote (f : Nat) (X : Str) :
    parseStrBodyAux (f + 1) ('\\' :: '"' :: X) = consS '"' (parseStrBodyAux f X) := rfl

/-- Helper: parser step for an escaped backslash. -/
theorem parseAux_esc_backslash (f : Nat) (X : Str) :
    parseStrBodyAux (f + 1) ('\\' :: '\\' :: X) = consS '\\' (parseStrBodyAux f X) := rfl

/-- Helper: parser step for the backspace escape. -/
theorem parseAux_esc_b (f : Nat) (X : Str) :
    parseStrBodyAux (f + 1) ('\\' :: 'b' :: X) = consS '\x08' (parseStrBodyAux f X) := rfl

/-- Helper: parser step for the form-feed escape. -/
theorem parseAux_esc_f (f : Nat) (X : Str) :
    parseStrBodyAux (f + 1) ('\\' :: 'f' :: X) = consS '\x0c' (parseStrBodyAux f X) := rfl

/-- Helper: parser step for the newline escape. -/
theorem parseAux_esc_n (f : Nat) (X : Str) :
    parseStrBodyAux (f + 1) ('\\' :: 'n' :: X) = consS '\n' (parseStrBodyAux f X) := rfl

/-- Helper: parser step for the carriage-return escape. -/
theorem parseAux_esc_r (f : Nat) (X : Str) :
    parseStrBodyAux (f + 1) ('\\' :: 'r' :: X) = consS '\r' (parseStrBodyAux f X) := rfl

/-- Helper: parser step for the tab escape. -/
theorem parseAux_esc_t (f : Nat) (X : Str) :
    parseStrBodyAux (f + 1) ('\\' :: 't' :: X) = consS '\t' (parseStrBodyAux f X) := rfl

/-- Helper: parser step for a unicode escape. -/
theorem parseAux_esc_u (f : Nat) (X : Str) :
    parseStrBodyAux (f + 1) ('\\' :: 'u' :: X) =
      (match parseHex4 X with
       | none => none
       | some (n, rest3) =>
         if 0xd800 ≤ n ∧ n ≤ 0xdbff then
           match rest3 with
           | c1 :: c2 :: rest4 =>
             if c1 = '\\' ∧ c2 = 'u' then
               match parseHex4 rest4 with
               | none => none
               | some (m, rest5) =>
                 if 0xdc00 ≤ m ∧ m ≤ 0xdfff then
                   consS (Char.ofNat (0x10000 + (n - 0xd800) * 0x400 + (m - 0xdc00)))
                     (parseStrBodyAux f rest5)
                 else none
             else none
           | _ => none
         else consS (Char.ofNat n) (parseStrBodyAux f rest3)) := rfl

/-- Helper: parser step for a verbatim character. -/
theorem parseAux_verbatim (f : Nat) (c : Char) (X : Str)
    (h1 : c ≠ '"') (h2 : c ≠ '\\') :
    parseStrBodyAux (f + 1) (c :: X) = consS c (parseStrBodyAux f X) := by
  simp only [parseStrBodyAux]
  rw [if_neg h1, if_neg h2]

/-- Helper: parser step for the closing quote. -/
theorem parseAux_close (f : Nat) (X : Str) :
    parseStrBodyAux (f + 1) ('"' :: X) = some ([], X) := rfl

/-- Helper: the escaped body of a string parses back to the string, for any
fuel exceeding its length. -/
theorem parseStrBodyAux_roundtrip (s : Str) :
    ∀ fuel rest, s.length < fuel →
      parseStrBodyAux fuel (escapeStr s ++ '"' :: rest) = some (s, rest) := by
  induction s with
  | nil =>
    intro fuel rest hf
    obtain ⟨f, rfl⟩ : ∃ f, fuel = f + 1 := ⟨fuel - 1, by omega⟩
    have e : escapeStr ([] : Str) ++ '"' :: rest = '"' :: rest := by
      simp [escapeStr]
    rw [e, parseAux_close]
  | cons c s ih =>
    intro fuel rest hf
    obtain ⟨f, rfl⟩ : ∃ f, fuel = f + 1 := ⟨fuel - 1, by omega⟩
    have hfs : s.length < f := by
      simp only [List.length_cons] at hf
      omega
    have hrec := ih f rest hfs
    have hes : escapeStr (c :: s) ++ '"' :: rest =
        escapeChar c ++ (escapeStr s ++ '"' :: rest) := by
      simp [escapeStr]
    rw [hes]
    have hfacts := char_toNat_facts c
    unfold escapeChar
    by_cases h1 : c = '"'
    · rw [if_pos h1]
      subst h1
      rw [show (['\\', '"'] : Str) ++ (escapeStr s ++ '"' :: rest) =
        '\\' :: '"' :: (escapeStr s ++ '"' :: rest) from rfl]
      rw [parseAux_esc_quote, hrec]
      rfl
    rw [if_neg h1]
    by_cases h2 : c = '\\'
    · rw [if_pos h2]
      subst h2
      rw [show (['\\', '\\'] : Str) ++ (escapeStr s ++ '"' :: rest) =
        '\\' :: '\\' :: (escapeStr s ++ '"' :: rest) from rfl]
      rw [parseAux_esc_backslash, hrec]
      rfl
    rw [if_neg h2]
    by_cases h3 : c = '\x08'
    · rw [if_pos h3]
      subst h3
      rw [show (['\\', 'b'] : Str) ++ (escapeStr s ++ '"' :: rest) =
        '\\' :: 'b' :: (escapeStr s ++ '"' :: rest) from rfl]
      rw [parseAux_esc_b, hrec]
      rfl
    rw [if_neg h3]
    by_cases h4 : c = '\x0c'
    · rw [if_pos h4]
      subst h4
      rw [show (['\\', 'f'] : Str) ++ (escapeStr s ++ '"' :: rest) =
        '\\' :: 'f' :: (escapeStr s ++ '"' :: rest) from rfl]
      rw [parseAux_esc_f, hrec]
      rfl
    rw [if_neg h4]
    by_cases h5 : c = '\n'
    · rw [if_pos h5]
      subst h5
      rw [show (['\\', 'n'] : Str) ++ (escapeStr s ++ '"' :: rest) =
        '\\' :: 'n' :: (escapeStr s ++ '"' :: rest) from rfl]
      rw [parseAux_esc_n, hrec]
      rfl
    rw [if_neg h5]
    by_cases h6 : c = '\r'
    · rw [if_pos h6]
      subst h6
      rw [show (['\\', 'r'] : Str) ++ (escapeStr s ++ '"' :: rest) =
        '\\' :: 'r' :: (escapeStr s ++ '"' :: rest) from rfl]
      rw [parseAux_esc_r, hrec]
      rfl
    rw [if_neg h6]
    by_cases h7 : c = '\t'
    · rw [if_pos h7]
      subst h7
      rw [show (['\\', 't'] : Str) ++ (escapeStr s ++ '"' :: rest) =
        '\\' :: 't' :: (escapeStr s ++ '"' :: rest) from rfl]
      rw [parseAux_esc_t, hrec]
      rfl
    rw [if_neg h7]
    by_cases h8 : c.toNat < 0x20
    · rw [if_pos h8]
      have e2 : ('\\' :: 'u' :: hex4 c.toNat) ++ (escapeStr s ++ '"' :: rest) =
          '\\' :: 'u' :: (hex4 c.toNat ++ (escapeStr s ++ '"' :: rest)) := by simp
      rw [e2, parseAux_esc_u,
        parseHex4_hex4 c.toNat (by omega) (escapeStr s ++ '"' :: rest)]
      try simp only []
      rw [if_neg (by omega : ¬ (0xd800 ≤ c.toNat ∧ c.toNat ≤ 0xdbff))]
      rw [Char.ofNat_toNat, hrec]
      rfl
    rw [if_neg h8]
    by_cases h9 : c.toNat ≤ 0x7e
    · rw [if_pos h9]
      rw [show ([c] : Str) ++ (escapeStr s ++ '"' :: rest) =
        c :: (escapeStr s ++ '"' :: rest) from rfl]
      rw [parseAux_verbatim f c _ h1 h2, hrec]
      rfl
    rw [if_neg h9]
    by_cases h10 : c.toNat < 0x10000
    · rw [if_pos h10]
      have e2 : ('\\' :: 'u' :: hex4 c.toNat) ++ (escapeStr s ++ '"' :: rest) =
          '\\' :: 'u' :: (hex4 c.toNat ++ (escapeStr s ++ '"' :: rest)) := by simp
      rw [e2, parseAux_esc_u,
        parseHex4_hex4 c.toNat (by omega) (escapeStr s ++ '"' :: rest)]
      try simp only []
      have hns : ¬ (0xd800 ≤ c.toNat ∧ c.toNat ≤ 0xdbff) := by
        rcases hfacts.2 with hh | hh <;> omega
      rw [if_neg hns]
      rw [Char.ofNat_toNat, hrec]
      rfl
    rw [if_neg h10]
    have hlt : c.toNat < 0x110000 := hfacts.1
    have e2 : (('\\' :: 'u' :: hex4 (0xd800 + (c.toNat - 0x10000) / 0x400)) ++
          ('\\' :: 'u' :: hex4 (0xdc00 + (c.toNat - 0x10000) % 0x400))) ++
          (escapeStr s ++ '"' :: rest) =
        '\\' :: 'u' :: (hex4 (0xd800 + (c.toNat - 0x10000) / 0x400) ++
          ('\\' :: 'u' :: (hex4 (0xdc00 + (c.toNat - 0x10000) % 0x400) ++
            (escapeStr s ++ '"' :: rest)))) := by simp
    rw [e2, parseAux_esc_u,
      parseHex4_hex4 (0xd800 + (c.toNat - 0x10000) / 0x400) (by omega)]
    try simp only []
    rw [if_pos (by omega :
      0xd800 ≤ 0xd800 + (c.toNat - 0x10000) / 0x400 ∧
        0xd800 + (c.toNat - 0x10000) / 0x400 ≤ 0xdbff)]
    try simp only []
    rw [if_pos (⟨trivial, trivial⟩ : True ∧ True)]
    rw [parseHex4_hex4 (0xdc00 + (c.toNat - 0x10000) % 0x400) (by omega)]
    try simp only []
    rw [if_pos (by omega :
      0xdc00 ≤ 0xdc00 + (c.toNat - 0x10000) % 0x400 ∧
        0xdc00 + (c.toNat - 0x10000) % 0x400 ≤ 0xdfff)]
    have harith : 0x10000 +
        (0xd800 + (c.toNat - 0x10000) / 0x400 - 0xd800) * 0x400 +
        (0xdc00 + (c.toNat - 0x10000) % 0x400 - 0xdc00) = c.toNat := by omega
    rw [harith, Char.ofNat_toNat, hrec]
    rfl

/-- Helper: a serialized string literal body parses back to the string. -/
theorem parseStrBody_roundtrip (s rest : Str) :
    parseStrBody (escapeStr s ++ '"' :: rest) = some (s, rest) := by
  unfold parseStrBody
  apply parseStrBodyAux_roundtrip
  have h1 := escapeStr_length_ge s
  simp only [List.length_append, List.length_cons]
  omega

/-- Accumulated decimal value of a digit string (the quantity
`parseNatAux` computes). -/
def valAppend (acc : Nat) (ds : Str) : Nat :=
  ds.foldl (fun a c => a * 10 + (digitVal c).getD 0) acc

/-- Helper: the scanner consumes a block of digits, accumulating its
value. -/
theorem parseNatAux_digits (ds : Str) :
    ∀ rest acc, (∀ c ∈ ds, (digitVal c).isSome = true) →
      parseNatAux (ds ++ rest) acc = parseNatAux rest (valAppend acc ds) := by
  induction ds with
  | nil => intro rest acc _; rfl
  | cons c ds ih =>
    intro rest acc h
    have hc : (digitVal c).isSome = true := h c (List.mem_cons_self c ds)
    obtain ⟨d, hd⟩ := Option.isSome_iff_exists.mp hc
    have e1 : parseNatAux ((c :: ds) ++ rest) acc = parseNatAux (ds ++ rest) (acc * 10 + d) := by
      simp only [List.cons_append, parseNatAux, hd, List.append_eq]
    have e2 : valAppend acc (c :: ds) = valAppend (acc * 10 + d) ds := by
      simp [valAppend, List.foldl_cons, hd]
    rw [e1, e2, ih rest (acc * 10 + d) (fun x hx => h x (List.mem_cons_of_mem c hx))]

/-- Helper: the scanner stops at a non-digit (or the end). -/
theorem parseNatAux_stop (rest : Str) (acc : Nat)
    (h : ∀ c, rest.head? = some c → digitVal c = none) :
    parseNatAux rest acc = (acc, rest) := by
  cases rest with
  | nil => rfl
  | cons c r =>
    have := h c rfl
    simp [parseNatAux, this]

/-- Helper: every character emitted for a natural number is a digit. -/
theorem natToStrAux_digits (fuel : Nat) :
    ∀ n, n < fuel → ∀ c ∈ natToStrAux fuel n, (digitVal c).isSome = true := by
  induction fuel with
  | zero => intro n hb; omega
  | succ fuel ih =>
    intro n hb c hc
    by_cases h : n < 10
    · simp only [natToStrAux, if_pos h] at hc
      simp only [List.mem_singleton] at hc
      subst hc
      rw [digitVal_digitChar n h]
      rfl
    · simp only [natToStrAux, if_neg h] at hc
      rcases List.mem_append.mp hc with hm | hm
      · exact ih (n / 10) (by omega) c hm
      · simp only [List.mem_singleton] at hm
        subst hm
        rw [digitVal_digitChar _ (Nat.mod_lt _ (by omega))]
        rfl

/-- Helper: the digit string of a natural number is non-empty. -/
theorem natToStrAux_ne_nil (fuel n : Nat) (hb : n < fuel) :
    natToStrAux fuel n ≠ [] := by
  obtain ⟨f, rfl⟩ : ∃ f, fuel = f + 1 := ⟨fuel - 1, by omega⟩
  by_cases h : n < 10
  · simp [natToStrAux, if_pos h]
  · simp only [natToStrAux, if_neg h]
    simp

/-- Helper: folding the emitted digits recovers the number. -/
theorem valAppend_natToStrAux (fuel : Nat) :
    ∀ n, n < fuel → ∀ acc,
      valAppend acc (natToStrAux fuel n) =
        acc * 10 ^ (natToStrAux fuel n).length + n := by
  induction fuel with
  | zero => intro n hb; omega
  | succ fuel ih =>
    intro n hb acc
    by_cases h : n < 10
    · simp only [natToStrAux, if_pos h]
      simp [valAppend, digitVal_digitChar n h]
    · simp only [natToStrAux, if_neg h]
      have e1 : valAppend acc (natToStrAux fuel (n / 10) ++ [digitChar (n % 10)]) =
          valAppend (valAppend acc (natToStrAux fuel (n / 10))) [digitChar (n % 10)] := by
        simp [valAppend, List.foldl_append]
      rw [e1, ih (n / 10) (by omega) acc]
      have e2 : valAppend (acc * 10 ^ (natToStrAux fuel (n / 10)).length + n / 10)
          [digitChar (n % 10)] =
          (acc * 10 ^ (natToStrAux fuel (n / 10)).length + n / 10) * 10 + n % 10 := by
        simp [valAppend, digitVal_digitChar _ (Nat.mod_lt _ (by omega))]
      rw [e2]
      simp only [List.length_append, List.length_cons, List.length_nil]
      rw [pow_succ]
      have : n / 10 * 10 + n % 10 = n := by omega
      ring_nf
      omega

/-- Helper: an emitted natural number parses back, when the continuation
does not begin with a digit. -/
theorem parseNatStrict_natToStr (n : Nat) (rest : Str)
    (h : ∀ c, rest.head? = some c → digitVal c = none) :
    parseNatStrict (natToStr n ++ rest) = some (n, rest) := by
  have hb : n < n + 1 := Nat.lt_succ_self n
  have hdigits := natToStrAux_digits (n + 1) n hb
  have hval := valAppend_natToStrAux (n + 1) n hb
  rcases hds : natToStrAux (n + 1) n with _ | ⟨c, ds⟩
  · exact absurd hds (natToStrAux_ne_nil (n + 1) n hb)
  · rw [hds] at hdigits hval
    have hc : (digitVal c).isSome = true := hdigits c (List.mem_cons_self c ds)
    obtain ⟨d, hd⟩ := Option.isSome_iff_exists.mp hc
    have e1 : parseNatStrict ((c :: ds) ++ rest) = some (parseNatAux (ds ++ rest) d) := by
      simp [parseNatStrict, hd]
    have e2 : parseNatAux (ds ++ rest) d = parseNatAux rest (valAppend d ds) :=
      parseNatAux_digits ds rest d (fun x hx => hdigits x (List.mem_cons_of_mem c hx))
    have e3 : parseNatAux rest (valAppend d ds) = (valAppend d ds, rest) :=
      parseNatAux_stop rest _ h
    have e4 : valAppend d ds = n := by
      have h0 := hval 0
      have : valAppend 0 (c :: ds) = valAppend d ds := by
        simp [valAppend, List.foldl_cons, hd]
      rw [this] at h0
      simpa using h0
    unfold natToStr
    rw [hds, e1, e2, e3, e4]

/-- Helper: a digit head is none of the other value-leading characters. -/
theorem digit_head_ne (c : Char) (h : (digitVal c).isSome = true) :
    c ≠ 'n' ∧ c ≠ 't' ∧ c ≠ 'f' ∧ c ≠ '"' ∧ c ≠ '-' ∧ c ≠ '[' ∧ c ≠ lbr := by
  have hb : 48 ≤ c.toNat ∧ c.toNat ≤ 57 := by
    unfold digitVal at h
    by_cases hcond : 48 ≤ c.toNat ∧ c.toNat ≤ 57
    · exact hcond
    · rw [if_neg hcond] at h
      cases h
  refine ⟨?_, ?_, ?_, ?_, ?_, ?_, ?_⟩ <;>
    (intro he; subst he; revert hb; decide)

/-- Helper: parser step for a digit-headed value. -/
theorem parseValue_digit_head (fuel : Nat) (c : Char) (X : Str)
    (h : (digitVal c).isSome = true) :
    parseValue (fuel + 1) (c :: X) =
      (parseNatStrict (c :: X)).map fun p => (.int (p.1 : Int), p.2) := by
  obtain ⟨hn, ht, hf, hq, hm, hlb, hbr⟩ := digit_head_ne c h
  simp only [parseValue]
  rw [if_neg hn, if_neg ht, if_neg hf, if_neg hq, if_neg hm, if_neg hlb, if_neg hbr,
    if_pos h]

/-- Helper: literal continuations parse back. -/
theorem expectLit_append (lit rest : Str) : expectLit lit (lit ++ rest) = some rest := by
  unfold expectLit
  rw [if_pos]
  · rw [List.drop_left]
  · rw [List.isPrefixOf_iff_prefix]
    exact List.prefix_append lit rest

/-- Helper: a serialized string value parses back. -/
theorem parseValue_str (fuel : Nat) (s rest : Str) :
    parseValue (fuel + 1) (dumpStr s ++ rest) = some (.str s, rest) := by
  have e : dumpStr s ++ rest = '"' :: (escapeStr s ++ '"' :: rest) := by
    simp [dumpStr]
  rw [e]
  have e2 : parseValue (fuel + 1) ('"' :: (escapeStr s ++ '"' :: rest)) =
      (parseStrBody (escapeStr s ++ '"' :: rest)).map fun p => (.str p.1, p.2) := rfl
  rw [e2, parseStrBody_roundtrip]
  rfl

/-- Helper: a serialized `null` parses back. -/
theorem parseValue_null (fuel : Nat) (rest : Str) :
    parseValue (fuel + 1) (jsonDumps .null ++ rest) = some (.null, rest) := by
  have e : jsonDumps .null ++ rest = 'n' :: ("ull".toList ++ rest) := rfl
  rw [e]
  have e2 : parseValue (fuel + 1) ('n' :: ("ull".toList ++ rest)) =
      (expectLit "ull".toList ("ull".toList ++ rest)).map fun r => (.null, r) := rfl
  rw [e2, expectLit_append]
  rfl

/-- Helper: a serialized integer parses back, when the continuation does
not begin with a digit. -/
theorem parseValue_int (fuel : Nat) (n : Int) (rest : Str)
    (h : ∀ c, rest.head? = some c → digitVal c = none) :
    parseValue (fuel + 1) (intToStr n ++ rest) = some (.int n, rest) := by
  by_cases hneg : n < 0
  · have e : intToStr n ++ rest = '-' :: (natToStr n.natAbs ++ rest) := by
      simp [intToStr, if_pos hneg]
    rw [e]
    have e2 : parseValue (fuel + 1) ('-' :: (natToStr n.natAbs ++ rest)) =
        (parseNatStrict (natToStr n.natAbs ++ rest)).map
          fun p => (.int (-(p.1 : Int)), p.2) := rfl
    rw [e2, parseNatStrict_natToStr n.natAbs rest h]
    simp only [Option.map_some']
    have : -(n.natAbs : Int) = n := by omega
    rw [this]
  · have e : intToStr n ++ rest = natToStr n.toNat ++ rest := by
      simp [intToStr, if_neg hneg]
    rw [e]
    have hb : n.toNat < n.toNat + 1 := Nat.lt_succ_self _
    rcases hds : natToStrAux (n.toNat + 1) n.toNat with _ | ⟨c, ds⟩
    · exact absurd hds (natToStrAux_ne_nil _ _ hb)
    · have hdigits := natToStrAux_digits (n.toNat + 1) n.toNat hb
      rw [hds] at hdigits
      have hc : (digitVal c).isSome = true := hdigits c (List.mem_cons_self c ds)
      have e3 : natToStr n.toNat ++ rest = c :: (ds ++ rest) := by
        unfold natToStr
        rw [hds]
        rfl
      rw [e3, parseValue_digit_head fuel c (ds ++ rest) hc]
      have e4 : (c :: (ds ++ rest)) = natToStr n.toNat ++ rest := e3.symm
      rw [e4, parseNatStrict_natToStr n.toNat rest h]
      simp only [Option.map_some']
      have : ((n.toNat : Nat) : Int) = n := by omega
      rw [this]

/-- Helper: unfold one step of the object-member parser. -/
theorem parseMembers_step (fuel : Nat) (k : Str) (vrest : Str) :
    parseMembers (fuel + 1) ('"' :: (escapeStr k ++ '"' :: ':' :: vrest)) =
      (match parseValue fuel vrest with
       | none => none
       | some (v2, rest4) =>
         match rest4 with
         | ',' :: rest5 =>
           (parseMembers fuel rest5).map
             fun p : List (Str × JsonValue) × Str => ((k, v2) :: p.1, p.2)
         | c :: rest5 => if c = rbr then some ([(k, v2)], rest5) else none
         | [] => none) := by
  have e1 : parseMembers (fuel + 1) ('"' :: (escapeStr k ++ '"' :: ':' :: vrest)) =
      (match parseStrBody (escapeStr k ++ '"' :: ':' :: vrest) with
       | none => none
       | some (k2, rest2) =>
         match rest2 with
         | ':' :: rest3 =>
           (match parseValue fuel rest3 with
            | none => none
            | some (v2, rest4) =>
              match rest4 with
              | ',' :: rest5 => (parseMembers fuel rest5).map fun p => ((k2, v2) :: p.1, p.2)
              | c :: rest5 => if c = rbr then some ([(k2, v2)], rest5) else none
              | [] => none)
         | _ => none) := rfl
  rw [e1, parseStrBody_roundtrip k (':' :: vrest)]
  rfl

/-- Helper: parse one object member followed by a comma. -/
theorem parseMembers_member_more (fuel : Nat) (k : Str) (v : JsonValue)
    (vrest rest5 : Str) (hval : parseValue fuel vrest = some (v, ',' :: rest5)) :
    parseMembers (fuel + 1) ('"' :: (escapeStr k ++ '"' :: ':' :: vrest)) =
      (parseMembers fuel rest5).map fun p => ((k, v) :: p.1, p.2) := by
  rw [parseMembers_step fuel k vrest, hval]
  rfl

/-- Helper: parse the final object member followed by the closing brace. -/
theorem parseMembers_member_last (fuel : Nat) (k : Str) (v : JsonValue)
    (vrest rest5 : Str) (hval : parseValue fuel vrest = some (v, rbr :: rest5)) :
    parseMembers (fuel + 1) ('"' :: (escapeStr k ++ '"' :: ':' :: vrest)) =
      some ([(k, v)], rest5) := by
  rw [parseMembers_step fuel k vrest, hval]
  rfl

/-- Helper: the serialized usage dictionary, exposed character by
character. -/
theorem usage_text_eq (u : Usage) (rest : Str) :
    jsonDumps u.as_dict ++ rest =
      lbr :: '"' :: (escapeStr "input_tokens".toList ++ '"' :: ':' ::
        (intToStr u.input_tokens ++ ',' ::
          ('"' :: (escapeStr "cached_input_tokens".toList ++ '"' :: ':' ::
            (intToStr u.cached_input_tokens ++ ',' ::
              ('"' :: (escapeStr "output_tokens".toList ++ '"' :: ':' ::
                (intToStr u.output_tokens ++ rbr :: rest)))))))) := by
  simp [Usage.as_dict, jsonDumps, dumpsObj, dumpStr]

/-- Helper: a serialized usage dictionary parses back. -/
theorem parse_usage_dump (f : Nat) (u : Usage) (rest : Str) :
    parseValue (f + 5) (jsonDumps u.as_dict ++ rest) = some (u.as_dict, rest) := by
  have hnd : ∀ c : Char, (rbr :: rest).head? = some c → digitVal c = none := by
    intro c hc
    simp only [List.head?] at hc
    injection hc with h
    subst h
    decide
  have hndc : ∀ (t : Str) (c : Char), (',' :: t).head? = some c → digitVal c = none := by
    intro t c hc
    simp only [List.head?] at hc
    injection hc with h
    subst h
    decide
  have hv3 : parseValue (f + 1) (intToStr u.output_tokens ++ rbr :: rest) =
      some (.int u.output_tokens, rbr :: rest) :=
    parseValue_int f u.output_tokens (rbr :: rest) hnd
  have hm3 : parseMembers (f + 2)
      ('"' :: (escapeStr "output_tokens".toList ++ '"' :: ':' ::
        (intToStr u.output_tokens ++ rbr :: rest))) =
      some ([("output_tokens".toList, .int u.output_tokens)], rest) :=
    parseMembers_member_last (f + 1) _ _ _ _ hv3
  have hv2 : parseValue (f + 2) (intToStr u.cached_input_tokens ++ ',' ::
      ('"' :: (escapeStr "output_tokens".toList ++ '"' :: ':' ::
        (intToStr u.output_tokens ++ rbr :: rest)))) =
      some (.int u.cached_input_tokens, ',' ::
        ('"' :: (escapeStr "output_tokens".toList ++ '"' :: ':' ::
          (intToStr u.output_tokens ++ rbr :: rest)))) :=
    parseValue_int (f + 1) u.cached_input_tokens _ (hndc _)
  have hm2 : parseMembers (f + 3)
      ('"' :: (escapeStr "cached_input_tokens".toList ++ '"' :: ':' ::
        (intToStr u.cached_input_tokens ++ ',' ::
          ('"' :: (escapeStr "output_tokens".toList ++ '"' :: ':' ::
            (intToStr u.output_tokens ++ rbr :: rest)))))) =
      some ([("cached_input_tokens".toList, .int u.cached_input_tokens),
             ("output_tokens".toList, .int u.output_tokens)], rest) := by
    have h := parseMembers_member_more (f + 2) "cached_input_tokens".toList
      (.int u.cached_input_tokens) _ _ hv2
    rw [hm3] at h
    exact h
  have hv1 : parseValue (f + 3) (intToStr u.input_tokens ++ ',' ::
      ('"' :: (escapeStr "cached_input_tokens".toList ++ '"' :: ':' ::
        (intToStr u.cached_input_tokens ++ ',' ::
          ('"' :: (escapeStr "output_tokens".toList ++ '"' :: ':' ::
            (intToStr u.output_tokens ++ rbr :: rest))))))) =
      some (.int u.input_tokens, ',' ::
        ('"' :: (escapeStr "cached_input_tokens".toList ++ '"' :: ':' ::
          (intToStr u.cached_input_tokens ++ ',' ::
            ('"' :: (escapeStr "output_tokens".toList ++ '"' :: ':' ::
              (intToStr u.output_tokens ++ rbr :: rest))))))) :=
    parseValue_int (f + 2) u.input_tokens _ (hndc _)
  have hm1 : parseMembers (f + 4)
      ('"' :: (escapeStr "input_tokens".toList ++ '"' :: ':' ::
        (intToStr u.input_tokens ++ ',' ::
          ('"' :: (escapeStr "cached_input_tokens".toList ++ '"' :: ':' ::
            (intToStr u.cached_input_tokens ++ ',' ::
              ('"' :: (escapeStr "output_tokens".toList ++ '"' :: ':' ::
                (intToStr u.output_tokens ++ rbr :: rest))))))))) =
      some ([("input_tokens".toList, .int u.input_tokens),
             ("cached_input_tokens".toList, .int u.cached_input_tokens),
             ("output_tokens".toList, .int u.output_tokens)], rest) := by
    have h := parseMembers_member_more (f + 3) "input_tokens".toList
      (.int u.input_tokens) _ _ hv1
    rw [hm2] at h
    exact h
  rw [usage_text_eq u rest]
  have estep : parseValue (f + 5)
      (lbr :: '"' :: (escapeStr "input_tokens".toList ++ '"' :: ':' ::
        (intToStr u.input_tokens ++ ',' ::
          ('"' :: (escapeStr "cached_input_tokens".toList ++ '"' :: ':' ::
            (intToStr u.cached_input_tokens ++ ',' ::
              ('"' :: (escapeStr "output_tokens".toList ++ '"' :: ':' ::
                (intToStr u.output_tokens ++ rbr :: rest))))))))) =
      (parseMembers (f + 4)
        ('"' :: (escapeStr "input_tokens".toList ++ '"' :: ':' ::
          (intToStr u.input_tokens ++ ',' ::
            ('"' :: (escapeStr "cached_input_tokens".toList ++ '"' :: ':' ::
              (intToStr u.cached_input_tokens ++ ',' ::
                ('"' :: (escapeStr "output_tokens".toList ++ '"' :: ':' ::
                  (intToStr u.output_tokens ++ rbr :: rest)))))))))).map
        fun p => (.obj p.1, p.2) := rfl
  rw [estep, hm1]
  rfl

/-- Helper: the serialized tool-result dictionary, exposed character by
character. -/
theorem asdict_text_eq (r : CodexToolResult) (rest : Str) :
    jsonDumps r.as_dict ++ rest =
      lbr :: '"' :: (escapeStr "thread_id".toList ++ '"' :: ':' ::
        (jsonDumps (match r.thread_id with | none => .null | some t => .str t) ++ ',' ::
          ('"' :: (escapeStr "response".toList ++ '"' :: ':' ::
            (dumpStr r.response ++ ',' ::
              ('"' :: (escapeStr "usage".toList ++ '"' :: ':' ::
                (jsonDumps (match r.usage with | none => .null | some u => u.as_dict) ++
                  rbr :: rest)))))))) := by
  simp [CodexToolResult.as_dict, jsonDumps, dumpsObj, dumpStr]

/-- Helper: a serialized tool-result dictionary parses back. -/
theorem parse_asdict_dump (g : Nat) (r : CodexToolResult) (rest : Str) :
    parseValue (g + 9) (jsonDumps r.as_dict ++ rest) = some (r.as_dict, rest) := by
  have hv3 : parseValue (g + 5)
      (jsonDumps (match r.usage with | none => .null | some u => u.as_dict) ++
        rbr :: rest) =
      some ((match r.usage with | none => .null | some u => u.as_dict),
        rbr :: rest) := by
    cases r.usage with
    | none => exact parseValue_null (g + 4) (rbr :: rest)
    | some u => exact parse_usage_dump g u (rbr :: rest)
  have hm3 : parseMembers (g + 6)
      ('"' :: (escapeStr "usage".toList ++ '"' :: ':' ::
        (jsonDumps (match r.usage with | none => .null | some u => u.as_dict) ++
          rbr :: rest))) =
      some ([("usage".toList,
        (match r.usage with | none => .null | some u => u.as_dict))], rest) :=
    parseMembers_member_last (g + 5) _ _ _ _ hv3
  have hv2 : parseValue (g + 6)
      (dumpStr r.response ++ ',' ::
        ('"' :: (escapeStr "usage".toList ++ '"' :: ':' ::
          (jsonDumps (match r.usage with | none => .null | some u => u.as_dict) ++
            rbr :: rest)))) =
      some (.str r.response, ',' ::
        ('"' :: (escapeStr "usage".toList ++ '"' :: ':' ::
          (jsonDumps (match r.usage with | none => .null | some u => u.as_dict) ++
            rbr :: rest)))) :=
    parseValue_str (g + 5) r.response _
  have hm2 : parseMembers (g + 7)
      ('"' :: (escapeStr "response".toList ++ '"' :: ':' ::
        (dumpStr r.response ++ ',' ::
          ('"' :: (escapeStr "usage".toList ++ '"' :: ':' ::
            (jsonDumps (match r.usage with | none => .null | some u => u.as_dict) ++
              rbr :: rest)))))) =
      some ([("response".toList, .str r.response),
             ("usage".toList,
              (match r.usage with | none => .null | some u => u.as_dict))], rest) := by
    have h := parseMembers_member_more (g + 6) "response".toList (.str r.response) _ _ hv2
    rw [hm3] at h
    exact h
  have hv1 : parseValue (g + 7)
      (jsonDumps (match r.thread_id with | none => .null | some t => .str t) ++ ',' ::
        ('"' :: (escapeStr "response".toList ++ '"' :: ':' ::
          (dumpStr r.response ++ ',' ::
            ('"' :: (escapeStr "usage".toList ++ '"' :: ':' ::
              (jsonDumps (match r.usage with | none => .null | some u => u.as_dict) ++
                rbr :: rest))))))) =
      some ((match r.thread_id with | none => .null | some t => .str t), ',' ::
        ('"' :: (escapeStr "response".toList ++ '"' :: ':' ::
          (dumpStr r.response ++ ',' ::
            ('"' :: (escapeStr "usage".toList ++ '"' :: ':' ::
              (jsonDumps (match r.usage with | none => .null | some u => u.as_dict) ++
                rbr :: rest))))))) := by
    cases r.thread_id with
    | none => exact parseValue_null (g + 6) _
    | some t => exact parseValue_str (g + 6) t _
  have hm1 : parseMembers (g + 8)
      ('"' :: (escapeStr "thread_id".toList ++ '"' :: ':' ::
        (jsonDumps (match r.thread_id with | none => .null | some t => .str t) ++ ',' ::
          ('"' :: (escapeStr "response".toList ++ '"' :: ':' ::
            (dumpStr r.response ++ ',' ::
              ('"' :: (escapeStr "usage".toList ++ '"' :: ':' ::
                (jsonDumps (match r.usage with | none => .null | some u => u.as_dict) ++
                  rbr :: rest))))))))) =
      some ([("thread_id".toList,
              (match r.thread_id with | none => .null | some t => .str t)),
             ("response".toList, .str r.response),
             ("usage".toList,
              (match r.usage with | none => .null | some u => u.as_dict))], rest) := by
    have h := parseMembers_member_more (g + 7) "thread_id".toList
      (match r.thread_id with | none => .null | some t => .str t) _ _ hv1
    rw [hm2] at h
    exact h
  rw [asdict_text_eq r rest]
  have estep : parseValue (g + 9)
      (lbr :: '"' :: (escapeStr "thread_id".toList ++ '"' :: ':' ::
        (jsonDumps (match r.thread_id with | none => .null | some t => .str t) ++ ',' ::
          ('"' :: (escapeStr "response".toList ++ '"' :: ':' ::
            (dumpStr r.response ++ ',' ::
              ('"' :: (escapeStr "usage".toList ++ '"' :: ':' ::
                (jsonDumps (match r.usage with | none => .null | some u => u.as_dict) ++
                  rbr :: rest))))))))) =
      (parseMembers (g + 8)
        ('"' :: (escapeStr "thread_id".toList ++ '"' :: ':' ::
          (jsonDumps (match r.thread_id with | none => .null | some t => .str t) ++ ',' ::
            ('"' :: (escapeStr "response".toList ++ '"' :: ':' ::
              (dumpStr r.response ++ ',' ::
                ('"' :: (escapeStr "usage".toList ++ '"' :: ':' ::
                  (jsonDumps (match r.usage with | none => .null | some u => u.as_dict) ++
                    rbr :: rest)))))))))).map
        fun p => (.obj p.1, p.2) := rfl
  rw [estep, hm1]
  rfl

/-- C9: for every tool result value (thread id, response, usage),
serializing the result to its text form (`str(result)`, i.e.
`json.dumps(result.as_dict())`) and parsing that text as JSON reproduces
exactly the dictionary given by `as_dict`. -/
theorem c9_result_text_roundtrip (r : CodexToolResult) :
    jsonParse r.toText = some r.as_dict := by
  have hlen : 8 ≤ (jsonDumps r.as_dict).length := by
    have e := asdict_text_eq r []
    rw [List.append_nil] at e
    rw [e]
    simp only [List.length_cons, List.length_append]
    have h9 : (escapeStr "thread_id".toList).length = 9 := rfl
    omega
  unfold CodexToolResult.toText jsonParse
  obtain ⟨g, hg⟩ : ∃ g, (jsonDumps r.as_dict).length + 1 = g + 9 :=
    ⟨(jsonDumps r.as_dict).length - 8, by omega⟩
  rw [hg]
  have h := parse_asdict_dump g r []
  rw [List.append_nil] at h
  rw [h]

/-- C6: whenever event consumption fails with an exception in run-context
mode and a thread id was resolved before the failure (held in
`resolved_thread_id_holder`, including an id learned from a
`thread.started` event during the failed turn), the adapter attempts the
run-context write (`attempted = true`), a secondary failure of the write
is only caught and logged (`failureLogged` mirrors the store outcome), and
the call's outcome — handled failure or re-raised consume error — is the
same whether or not that write fails: the write error never propagates. -/
theorem c6_store_attempted_after_error
    (events : List ThreadEvent) (threadIdAtStart holderInit : Option Str)
    (argsHasInputs : Bool) (storeOnSuccess storeAfterError : StoreOutcome)
    (failureHandler : Option Str) (e : ConsumeErr) (t : Str)
    (h1 : consume_events events threadIdAtStart holderInit argsHasInputs = .error e)
    (h2 : e.holderThreadId = some t) :
    on_invoke_tool_model events threadIdAtStart holderInit argsHasInputs
        true storeOnSuccess storeAfterError failureHandler =
      match failureHandler with
      | some h => .handledFailure h ⟨true, storeFails storeAfterError⟩
      | none => .raisedConsumeError e.message ⟨true, storeFails storeAfterError⟩ := by
  have hretry : try_store_thread_id_in_run_context_after_error true
      e.holderThreadId storeAfterError = ⟨true, storeFails storeAfterError⟩ := by
    rw [h2]
    unfold try_store_thread_id_in_run_context_after_error
    rw [if_neg (by simp : ¬ (¬ (true : Bool) = true ∨ (some t : Option Str) = none))]
    cases storeAfterError <;> rfl
  unfold on_invoke_tool_model
  rw [h1]
  cases failureHandler with
  | some h =>
    rw [← hretry]
  | none =>
    rw [← hretry]

/-- Witness for C6 at a concrete failed turn: the thread id `T` is learned
from `thread.started` during the turn that then fails, the after-error
write is attempted and its own failure only logged, and the call still
returns the failure handler's result. -/
theorem c6_store_attempted_after_error_witness :
    consume_events
        [ThreadEvent.threadStarted "T".toList, ThreadEvent.turnFailed "boom".toList]
        none none false =
      .error ⟨turnFailedMessage "boom".toList, some "T".toList, []⟩ ∧
    on_invoke_tool_model
        [ThreadEvent.threadStarted "T".toList, ThreadEvent.turnFailed "boom".toList]
        none none false true .success .failure (some "handled".toList) =
      .handledFailure "handled".toList ⟨true, true⟩ :=
  ⟨rfl, by
    have h := c6_store_attempted_after_error
      [ThreadEvent.threadStarted "T".toList, ThreadEvent.turnFailed "boom".toList]
      none none false .success .failure (some "handled".toList)
      ⟨turnFailedMessage "boom".toList, some "T".toList, []⟩ "T".toList rfl rfl
    rw [h]
    rfl⟩


end Codex




